import Mathlib

/-!
Graceful shutdown of an application that owns several servers

Verification development for the Go packages `app` (the shutdown
orchestrator, `app/app.go`) and `server` (the HTTP server with a rejecting
mux, `server/server.go`).

* `app.New` and the four option constructors are embedded as pure functions.
* The shutdown sequence (`shutdown`, `forceShutdown`, `stopAllServers`,
  `executeAllCallbacks`) is embedded twice: as a timed semantics, which gives
  the instants at which the fan-outs return and the ways the race between
  second signal, timeout and completion can end; and as an interleaving
  semantics, a transition system over the goroutines, the two wait groups, the
  signal queue, the timer and the context, in which orderings are proved as
  invariants of all runs.
* `server.serveMux.ServeHTTP`, `server.Server.Handle` and `server.Server.Stop`
  are embedded as pure functions on the state of one server; the dispatch of
  the embedded `http.ServeMux` is a parameter.
-/

set_option linter.dupNamespace false

namespace app

/-- A `time.Duration`: a signed number of nanoseconds. -/
abbrev Duration := Int

/-- The constant `time.Millisecond`. -/
def Millisecond : Duration := 1000000

/-- The constant `time.Second`. -/
def Second : Duration := 1000000000

/-- Exit status of a forced exit (app.go:19). -/
def InterruptExitCode : Int := 13

/-- Exit status of an exit by timeout (app.go:20). -/
def TimeoutExitCode : Int := 18

/-- A Go `error` value made by `errors.New`. -/
structure error where
  msg : String
deriving DecidableEq, Repr

/-- The error of app.go:24. -/
def ErrAtLeastOneServer : error := ⟨"at least one server is required"⟩

/-- The error `context.DeadlineExceeded`, what `ctx.Err()` is once the deadline of `ctx` has passed. -/
def DeadlineExceeded : error := ⟨"context deadline exceeded"⟩

/-- What one call `Stop(ctx)` does as seen by its caller: after how many
nanoseconds it returns (`none`: it never returns) and the error it returns. -/
structure StopResult where
  latency : Option Nat
  err : Option error
deriving DecidableEq, Repr

/-- An implementation of the interface `Server` (app.go:27-33), as far as the
orchestrator uses it.  `Stop d` is the behaviour of `Stop(ctx)` when `ctx`
expires `d` nanoseconds after the call.  `Handle` is never called by package
`app`, and the result of `Start` is only logged (app.go:101-105). -/
structure Server where
  Name : String
  Addr : String
  Stop : Duration → StopResult

/-- A `ShutdownCallback` (app.go:35): called with a context that expires `d`
nanoseconds after the call, it returns after the given number of nanoseconds
(`none`: it never returns).  It has no result. -/
abbrev ShutdownCallback := Duration → Option Nat

/-- The struct `options` (app.go:44-51). -/
structure options where
  shutdownTimeout : Duration
  waitTime : Duration
  callbackTimeout : Duration
deriving DecidableEq, Repr

/-- The struct `app` (app.go:37-42).  The channel `sigs` is nil until
`monitorSignals` makes it; it is part of the run-time state below. -/
structure app where
  servers : List Server
  callbacks : List ShutdownCallback
  opts : options

/-- The type `option` (app.go:53): a function that updates the app under construction. -/
def option := app → app

/-- The function `WithShutdownCallbacks` (app.go:55-59). -/
def WithShutdownCallbacks (s : List ShutdownCallback) : option :=
  fun a => { a with callbacks := s }

/-- The function `WithShutdownTimeout` (app.go:61-65). -/
def WithShutdownTimeout (timeout : Duration) : option :=
  fun a => { a with opts := { a.opts with shutdownTimeout := timeout } }

/-- The function `WithWaitTimeout` (app.go:67-71). -/
def WithWaitTimeout (timeout : Duration) : option :=
  fun a => { a with opts := { a.opts with waitTime := timeout } }

/-- The function `WithCallbackTimeout` (app.go:73-77). -/
def WithCallbackTimeout (timeout : Duration) : option :=
  fun a => { a with opts := { a.opts with callbackTimeout := timeout } }

/-- The function `New` (app.go:79-95).  The Go result `(*app, error)` is the pair
of an optional app (`none` is the nil pointer) and an optional error (`none` is nil). -/
def New (servers : List Server) (opts : List option) : Option app × Option error :=
  if servers.length < 2 then
    (none, some ErrAtLeastOneServer)
  else
    let a : app :=
      { servers := servers
        callbacks := []
        opts :=
          { shutdownTimeout := 30 * Second
            waitTime := 10 * Second
            callbackTimeout := 3 * Second } }
    (some (opts.foldl (fun acc opt => opt acc) a), none)

/-- The type `option` and the struct `app` are unexported, so a caller of `New`
gets its options from the four exported constructors.  An `OptionCall` is one
such call with its argument. -/
inductive OptionCall where
  | shutdownCallbacks (s : List ShutdownCallback)
  | shutdownTimeout (timeout : Duration)
  | waitTimeout (timeout : Duration)
  | callbackTimeout (timeout : Duration)

/-- The option value a call of an exported constructor returns. -/
def OptionCall.toOption : OptionCall → option
  | .shutdownCallbacks s => WithShutdownCallbacks s
  | .shutdownTimeout t => WithShutdownTimeout t
  | .waitTimeout t => WithWaitTimeout t
  | .callbackTimeout t => WithCallbackTimeout t

/-- The value of the last call in `cs` that `sel` recognises, if there is one. -/
def lastSupplied {α : Type} (sel : OptionCall → Option α) : List OptionCall → Option α
  | [] => none
  | c :: cs =>
    match lastSupplied sel cs with
    | some v => some v
    | none => sel c

/-- The argument of a call of `WithShutdownTimeout`. -/
def OptionCall.shutdownTimeout? : OptionCall → Option Duration
  | .shutdownTimeout t => some t
  | _ => none

/-- The argument of a call of `WithWaitTimeout`. -/
def OptionCall.waitTimeout? : OptionCall → Option Duration
  | .waitTimeout t => some t
  | _ => none

/-- The argument of a call of `WithCallbackTimeout`. -/
def OptionCall.callbackTimeout? : OptionCall → Option Duration
  | .callbackTimeout t => some t
  | _ => none

/-- The argument of a call of `WithShutdownCallbacks`. -/
def OptionCall.shutdownCallbacks? : OptionCall → Option (List ShutdownCallback)
  | .shutdownCallbacks s => some s
  | _ => none

/-- The durations the specification gives an app built with the calls `cs`:
the defaults 30s, 10s and 3s, each replaced by the last value supplied for it. -/
def specOptions (cs : List OptionCall) : options :=
  { shutdownTimeout := (lastSupplied OptionCall.shutdownTimeout? cs).getD (30 * Second)
    waitTime := (lastSupplied OptionCall.waitTimeout? cs).getD (10 * Second)
    callbackTimeout := (lastSupplied OptionCall.callbackTimeout? cs).getD (3 * Second) }

/-- The callbacks the specification gives an app built with the calls `cs`:
none by default, else the last list supplied. -/
def specCallbacks (cs : List OptionCall) : List ShutdownCallback :=
  (lastSupplied OptionCall.shutdownCallbacks? cs).getD []

/-! ### Timed semantics of the shutdown sequence

Instants are nanoseconds on the monotonic clock.  The model is the ideal one:
statements take no time, a goroutine blocked in a `select` proceeds at the
first instant at which one of its cases is ready, and when several cases are
ready at that instant any of them may be taken (the Go runtime picks one at
random), so the result of a `select` is the list of the endings that can happen. -/

/-- An instant of the monotonic clock, in nanoseconds. -/
abbrev Time := Int

/-- How the goroutine running `forceShutdown` ends: it calls `os.Exit(code)`,
which ends the process, or it returns. For the process: `StartAndServe` has
returned to its caller without any `os.Exit`. -/
inductive Ending where
  | exit (code : Int)
  | returned
deriving DecidableEq, Repr

/-- The instant at which `wg.Wait()` returns when the goroutines of a fan-out
all start at `t` and run for the given times (app.go:165, app.go:186): the
instant the last one ends, `none` when one of them never ends. -/
def joinAll (t : Time) : List (Option Nat) → Option Time
  | [] => some t
  | none :: _ => none
  | some d :: ls => (joinAll t ls).map (max (t + d))

/-- The method `stopAllServers` (app.go:150-166), entered at `t`: every server
gets `Stop(ctx)` with `ctx` expiring `waitTime` later; the result is the instant
at which the method returns. -/
def stopAllServers (a : app) (t : Time) : Option Time :=
  joinAll t (a.servers.map fun s => (s.Stop a.opts.waitTime).latency)

/-- The method `executeAllCallbacks` (app.go:168-187), entered at `t`: every
callback is called with a context expiring `callbackTimeout` later; the result
is the instant at which the method returns. -/
def executeAllCallbacks (a : app) (t : Time) : Option Time :=
  joinAll t (a.callbacks.map fun c => c a.opts.callbackTimeout)

/-- The instant at which the body of `shutdown` reaches its `return`
(app.go:130-132) when the first signal is received at `t0`; the deferred
`cancel()` closes `ctx.Done()` at that instant. -/
def completion (a : app) (t0 : Time) : Option Time :=
  (stopAllServers a t0).bind (executeAllCallbacks a)

/-- The instant at which the channel `time.After(d)` made at `t` delivers:
`d` later, at once when `d` is not positive. -/
def timeAfter (t : Time) (d : Duration) : Time := t + max 0 d

/-- The earlier of an instant and an optional instant. -/
def earlier (t : Time) : Option Time → Time
  | none => t
  | some u => min t u

/-- The method `forceShutdown` (app.go:136-148), entered at `t`.  `sig` is the
instant at which `a.sigs` holds a signal for it (`none`: no further signal)
and `done` the instant at which `ctx.Done()` is closed (`none`: never); an
event that happened before `t` is ready at `t`. -/
def forceShutdown (a : app) (t : Time) (sig done : Option Time) : List Ending :=
  let sigReady := sig.map (max t)
  let timer := timeAfter t a.opts.shutdownTimeout
  let doneReady := done.map (max t)
  let first := earlier (earlier timer sigReady) doneReady
  (if sigReady = some first then [Ending.exit InterruptExitCode] else []) ++
  (if timer = first then [Ending.exit TimeoutExitCode] else []) ++
  (if doneReady = some first then [Ending.returned] else [])

/-- The method `shutdown` (app.go:123-134), with `sigs` the instants at which
the monitored signals reach `a.sigs`, in order.  Without any signal the
`select` of app.go:124 blocks for ever (`none`).  With a first signal at `t0`
the race `forceShutdown` starts at `t0`, next to the two fan-outs; the result
lists the ways the process can end. -/
def shutdown (a : app) (sigs : List Time) : Option (List Ending) :=
  match sigs with
  | [] => none
  | t0 :: rest => some (forceShutdown a t0 rest.head? (completion a t0))

/-- The test double `FakeServer` (app_test.go:43-79): `Stop` returns `ctx.Err()`
when `ctx` expires before `timeout` has passed, and nil after `timeout`
otherwise (when both are ready at the same instant the model takes the second case). -/
def FakeServer (name addr : String) (timeout : Duration) : Server :=
  { Name := name
    Addr := addr
    Stop := fun d =>
      if d < timeout then ⟨some (max 0 d).toNat, some DeadlineExceeded⟩
      else ⟨some (max 0 timeout).toNat, none⟩ }

/-! ### Interleaving semantics of the shutdown sequence

The goroutines of `shutdown` as a transition system: the goroutine that runs
`shutdown`, one goroutine for each server and for each callback, and the
goroutine that runs `forceShutdown`.  A scheduler picks which of them takes its
next step; the operating system delivers signals and the runtime fires the
timer at any moment.  Nothing is assumed about how long a call takes or
whether it returns. -/

/-- Where the goroutine of one member of a fan-out stands (app.go:156-163 for a
server, app.go:175-183 for a callback): not yet created by the loop; created
after `wg.Add(1)`; inside the call `s.Stop(ctx)` or `callback(ctx)`; back from
the call with the deferred `wg.Done()` still to run; finished. -/
inductive Member where
  | idle
  | spawned
  | running
  | returned
  | done
deriving DecidableEq, Repr

/-- The members a `WaitGroup` is waiting for: `wg.Add(1)` has run for them, `wg.Done()` has not. -/
def Member.pending : Member → Bool
  | .spawned => true
  | .running => true
  | .returned => true
  | _ => false

/-- The members whose call has begun. -/
def Member.called : Member → Bool
  | .running => true
  | .returned => true
  | .done => true
  | _ => false

/-- The members whose call has returned. -/
def Member.finished : Member → Bool
  | .returned => true
  | .done => true
  | _ => false

/-- Where the goroutine that runs `shutdown` stands: blocked in the receive of
app.go:125; at the head of the loop of `stopAllServers` with `i` servers
handled (app.go:152); in `wg.Wait()` of app.go:165; at the head of the loop of
`executeAllCallbacks` with `j` callbacks handled (app.go:171); in `wg.Wait()`
of app.go:186; returned from `shutdown`, the deferred `cancel()` done. -/
inductive PC where
  | recv
  | stopLoop (i : Nat)
  | stopWait
  | cbLoop (j : Nat)
  | cbWait
  | returned
deriving DecidableEq, Repr

/-- Where the goroutine that runs `forceShutdown` stands: not created; created
by app.go:129; blocked in the `select` of app.go:137 with its timer armed;
returned through the case `ctx.Done()`. -/
inductive Race where
  | idle
  | spawned
  | selecting
  | ended
deriving DecidableEq, Repr

/-- The cases of the `select` of `forceShutdown` (app.go:138, 141, 144). -/
inductive SelectCase where
  | signal
  | timeout
  | done
deriving DecidableEq, Repr

/-- What a run records, in the order it happens.  A call of `Stop` or of a
callback is recorded with the timeout of the context it is given. -/
inductive Event where
  | signalReceived
  | stopCalled (i : Nat) (timeout : Duration)
  | stopReturned (i : Nat) (err : Option error)
  | callbackInvoked (j : Nat) (timeout : Duration)
  | callbackReturned (j : Nat)
  | cancelled
  | exited (code : Int)
deriving DecidableEq, Repr

/-- Whether the event is a call of `Stop` on server `i`. -/
def Event.stopCallOf (i : Nat) : Event → Bool
  | .stopCalled k _ => k == i
  | _ => false

/-- Whether the event is the return of `Stop` on server `i`. -/
def Event.stopReturnOf (i : Nat) : Event → Bool
  | .stopReturned k _ => k == i
  | _ => false

/-- The state of the process during `shutdown`: the goroutines, the two wait
groups, the number of signals buffered in `a.sigs` (capacity 2, app.go:112),
whether the timer of app.go:141 has fired, whether `ctx` is cancelled, the
exit status once `os.Exit` has been called, and the events so far. -/
structure State where
  pc : PC
  stops : List Member
  callbacks : List Member
  wgStop : Nat
  wgCallback : Nat
  race : Race
  sigs : Nat
  timerFired : Bool
  ctxDone : Bool
  exited : Option Int
  trace : List Event
deriving DecidableEq, Repr

/-- What can happen next: a monitored signal is delivered; the goroutine of
`shutdown` takes a step; the goroutine of server `i` takes a step (`err` is
what `Stop` returns if the step is its return); the goroutine of callback `j`
takes a step; the goroutine of `forceShutdown` enters its `select`; the timer
fires; the `select` takes a case. -/
inductive Action where
  | signal
  | main
  | stop (i : Nat) (err : Option error)
  | callback (j : Nat)
  | raceEnter
  | timer
  | raceTake (c : SelectCase)
deriving DecidableEq, Repr

/-- The state when `shutdown` is entered, after `monitorSignals`. -/
def init (a : app) : State :=
  { pc := .recv
    stops := List.replicate a.servers.length .idle
    callbacks := List.replicate a.callbacks.length .idle
    wgStop := 0
    wgCallback := 0
    race := .idle
    sigs := 0
    timerFired := false
    ctxDone := false
    exited := none
    trace := [] }

/-- A step of the goroutine that runs `shutdown` (app.go:123-134 with
`stopAllServers` and `executeAllCallbacks` in line); `none` when it is blocked. -/
def stepMain (a : app) (s : State) : Option State :=
  match s.pc with
  | .recv =>
    if s.sigs = 0 then none
    else some { s with
      sigs := s.sigs - 1, race := .spawned, pc := .stopLoop 0,
      trace := s.trace ++ [.signalReceived] }
  | .stopLoop i =>
    if i < a.servers.length then
      some { s with wgStop := s.wgStop + 1, stops := s.stops.set i .spawned, pc := .stopLoop (i + 1) }
    else some { s with pc := .stopWait }
  | .stopWait => if s.wgStop = 0 then some { s with pc := .cbLoop 0 } else none
  | .cbLoop j =>
    if j < a.callbacks.length then
      some { s with
        wgCallback := s.wgCallback + 1, callbacks := s.callbacks.set j .spawned, pc := .cbLoop (j + 1) }
    else some { s with pc := .cbWait }
  | .cbWait =>
    if s.wgCallback = 0 then
      some { s with pc := .returned, ctxDone := true, trace := s.trace ++ [.cancelled] }
    else none
  | .returned => none

/-- A step of the goroutine of server `i` (app.go:156-163): it makes the context
with timeout `waitTime` and calls `Stop`; `Stop` returns `err`, which is
dropped; the deferred `wg.Done()` runs (it would panic on a zero counter). -/
def stepStop (a : app) (s : State) (i : Nat) (err : Option error) : Option State :=
  match s.stops[i]? with
  | some .spawned =>
    some { s with
      stops := s.stops.set i .running, trace := s.trace ++ [.stopCalled i a.opts.waitTime] }
  | some .running =>
    some { s with stops := s.stops.set i .returned, trace := s.trace ++ [.stopReturned i err] }
  | some .returned =>
    if s.wgStop = 0 then none
    else some { s with stops := s.stops.set i .done, wgStop := s.wgStop - 1 }
  | _ => none

/-- A step of the goroutine of callback `j` (app.go:175-183). -/
def stepCallback (a : app) (s : State) (j : Nat) : Option State :=
  match s.callbacks[j]? with
  | some .spawned =>
    some { s with
      callbacks := s.callbacks.set j .running,
      trace := s.trace ++ [.callbackInvoked j a.opts.callbackTimeout] }
  | some .running =>
    some { s with callbacks := s.callbacks.set j .returned, trace := s.trace ++ [.callbackReturned j] }
  | some .returned =>
    if s.wgCallback = 0 then none
    else some { s with callbacks := s.callbacks.set j .done, wgCallback := s.wgCallback - 1 }
  | _ => none

/-- The `select` of `forceShutdown` taking case `c` (app.go:137-147); `none`
when the case is not ready. -/
def stepRace (s : State) (c : SelectCase) : Option State :=
  if s.race = .selecting then
    match c with
    | .signal =>
      if s.sigs = 0 then none
      else some { s with
        sigs := s.sigs - 1, exited := some InterruptExitCode,
        trace := s.trace ++ [.exited InterruptExitCode] }
    | .timeout =>
      if s.timerFired then
        some { s with exited := some TimeoutExitCode, trace := s.trace ++ [.exited TimeoutExitCode] }
      else none
    | .done => if s.ctxDone then some { s with race := .ended } else none
  else none

/-- One step of the process; `none` when the action cannot happen.  After
`os.Exit` nothing happens.  A signal delivered while the buffer of `a.sigs` is
full is dropped, as `signal.Notify` does not block. -/
def step (a : app) (s : State) (act : Action) : Option State :=
  if s.exited.isSome then none
  else
    match act with
    | .signal => if s.sigs < 2 then some { s with sigs := s.sigs + 1 } else some s
    | .main => stepMain a s
    | .stop i err => stepStop a s i err
    | .callback j => stepCallback a s j
    | .raceEnter => if s.race = .spawned then some { s with race := .selecting } else none
    | .timer =>
      if s.race = .selecting ∧ s.timerFired = false then some { s with timerFired := true }
      else none
    | .raceTake c => stepRace s c

/-- The state after the actions of a schedule, taken in order from `s`; `none`
when one of them cannot happen. -/
def run (a : app) (s : State) : List Action → Option State
  | [] => some s
  | act :: acts =>
    match step a s act with
    | some s1 => run a s1 acts
    | none => none

/-- The states a run of `shutdown` can be in. -/
inductive Reachable (a : app) : State → Prop where
  | init : Reachable a (init a)
  | step {s s1 : State} (act : Action) : Reachable a s → step a s act = some s1 → Reachable a s1

/-- Whether `stopAllServers` has returned. -/
def PC.afterStops : PC → Bool
  | .cbLoop _ => true
  | .cbWait => true
  | .returned => true
  | _ => false

/-- Every member of the fan-out is in status `m`. -/
def AllAre (l : List Member) (m : Member) : Prop :=
  ∀ (k : Nat) (g : Member), l[k]? = some g → g = m

/-- Every member of the fan-out has its goroutine. -/
def NoneIdle (l : List Member) : Prop :=
  ∀ (k : Nat) (g : Member), l[k]? = some g → g ≠ Member.idle

/-- The members without a goroutine are those from index `n` on. -/
def IdleFrom (l : List Member) (n : Nat) : Prop :=
  ∀ (k : Nat) (g : Member), l[k]? = some g → (g = Member.idle ↔ n ≤ k)

/-- What the position of the goroutine of `shutdown` says about the members
of the two fan-outs. -/
def phaseInv (s : State) : Prop :=
  match s.pc with
  | .recv => AllAre s.stops .idle ∧ AllAre s.callbacks .idle
  | .stopLoop i => IdleFrom s.stops i ∧ AllAre s.callbacks .idle
  | .stopWait => NoneIdle s.stops ∧ AllAre s.callbacks .idle
  | .cbLoop j => AllAre s.stops .done ∧ IdleFrom s.callbacks j
  | .cbWait => AllAre s.stops .done ∧ NoneIdle s.callbacks
  | .returned => AllAre s.stops .done ∧ AllAre s.callbacks .done

/-- In a trace over `n` servers, every invocation of a callback comes after
the return of `Stop` of every server. -/
def StopsBeforeCallbacks (n : Nat) (tr : List Event) : Prop :=
  ∀ pre post j d, tr = pre ++ Event.callbackInvoked j d :: post →
    ∀ i, i < n → ∃ e, Event.stopReturned i e ∈ pre

/-- The invariant of the runs of `shutdown`: one member status for each server
and callback; each wait group counts the members whose goroutine exists and
has not run `wg.Done()`; the members fit the position of the main goroutine;
the trace has one call of `Stop` for each server whose call has begun and none
for the others, always with timeout `waitTime`, and likewise one return for
each server whose call has returned; callbacks are invoked after all returns. -/
structure Inv (a : app) (s : State) : Prop where
  lenS : s.stops.length = a.servers.length
  lenC : s.callbacks.length = a.callbacks.length
  wgS : s.wgStop = s.stops.countP Member.pending
  wgC : s.wgCallback = s.callbacks.countP Member.pending
  phase : phaseInv s
  calls : ∀ k g, s.stops[k]? = some g →
    s.trace.countP (Event.stopCallOf k) = if g.called then 1 else 0
  callsT : ∀ k d, Event.stopCalled k d ∈ s.trace → d = a.opts.waitTime
  rets : ∀ k g, s.stops[k]? = some g →
    s.trace.countP (Event.stopReturnOf k) = if g.finished then 1 else 0
  order : StopsBeforeCallbacks a.servers.length s.trace

/-- The steps the goroutine of a member still has to take. -/
def Member.rank : Member → Nat
  | .spawned => 3
  | .running => 2
  | .returned => 1
  | _ => 0

/-- The steps the existing goroutines of a fan-out still have to take. -/
def remaining (l : List Member) : Nat :=
  (l.map Member.rank).sum

/-- A reachable state of a run in which the process has not exited, every
`Stop` that has returned on server `i` returned `errs i`, and every callback
whose call has begun is recorded as invoked with timeout `callbackTimeout`. -/
structure OnTrack (a : app) (errs : Nat → Option error) (s : State) : Prop where
  reach : Reachable a s
  alive : s.exited = none
  errsOk : ∀ i e, Event.stopReturned i e ∈ s.trace → e = errs i
  cbOk : ∀ (j : Nat) (g : Member), s.callbacks[j]? = some g → g.called = true →
    Event.callbackInvoked j a.opts.callbackTimeout ∈ s.trace

/-- The function `NewLongRunningFakeServer` (app_test.go:50-52). -/
def NewLongRunningFakeServer (name addr : String) : Server :=
  FakeServer name addr (10 * Second)

/-- The callbacks of `TestApp_Exit_Gracefully` (app_test.go:181-196): they return at once. -/
def fakeCallback : ShutdownCallback := fun _ => some 0

/-- The app of `TestApp_Exit_By_Interrupt` (app_test.go:88): two long-running
servers, no option. -/
def interruptTestApp : app :=
  { servers := [NewLongRunningFakeServer "biz" "any", NewLongRunningFakeServer "adm" "any"]
    callbacks := []
    opts :=
      { shutdownTimeout := 30 * Second
        waitTime := 10 * Second
        callbackTimeout := 3 * Second } }

/-- The app of `TestApp_Exit_By_Timeout` (app_test.go:144-146): two long-running
servers and a `shutdownTimeout` of 300ms. -/
def timeoutTestApp : app :=
  { servers := [NewLongRunningFakeServer "biz" "any", NewLongRunningFakeServer "adm" "any"]
    callbacks := []
    opts :=
      { shutdownTimeout := 300 * Millisecond
        waitTime := 10 * Second
        callbackTimeout := 3 * Second } }

/-- The options of `TestApp_Exit_Gracefully` (app_test.go:202-205). -/
def gracefulTestCalls : List OptionCall :=
  [ .shutdownCallbacks [fakeCallback, fakeCallback],
    .shutdownTimeout (300 * Millisecond),
    .waitTimeout (100 * Millisecond),
    .callbackTimeout (30 * Millisecond) ]

/-- The app of `TestApp_Exit_Gracefully` (app_test.go:201-205). -/
def gracefulTestApp : app :=
  { servers :=
      [FakeServer "biz" "any" (100 * Millisecond), FakeServer "adm" "any" (100 * Millisecond)]
    callbacks := [fakeCallback, fakeCallback]
    opts :=
      { shutdownTimeout := 300 * Millisecond
        waitTime := 100 * Millisecond
        callbackTimeout := 30 * Millisecond } }

/-- An app with one server slower to stop (110ms) than `waitTime` (100ms), one
fast server and two callbacks. -/
def slowStopApp : app :=
  { servers :=
      [FakeServer "biz" "any" (110 * Millisecond), FakeServer "adm" "any" (50 * Millisecond)]
    callbacks := [fakeCallback, fakeCallback]
    opts :=
      { shutdownTimeout := 300 * Millisecond
        waitTime := 100 * Millisecond
        callbackTimeout := 30 * Millisecond } }

/-- A complete run of `slowStopApp` after one signal, in which `Stop` of the
slow server returns the deadline error. -/
def slowStopSchedule : List Action :=
  [ .signal, .main, .main, .main, .main,
    .stop 0 none, .stop 1 none, .stop 1 none, .stop 0 (some DeadlineExceeded),
    .stop 0 none, .stop 1 none,
    .main, .main, .main, .main,
    .callback 0, .callback 1, .callback 0, .callback 1, .callback 0, .callback 1,
    .main ]

/-- The state at the end of `slowStopSchedule`. -/
def slowStopFinal : State :=
  { pc := .returned
    stops := [.done, .done]
    callbacks := [.done, .done]
    wgStop := 0
    wgCallback := 0
    race := .spawned
    sigs := 0
    timerFired := false
    ctxDone := true
    exited := none
    trace :=
      [ .signalReceived,
        .stopCalled 0 (100 * Millisecond),
        .stopCalled 1 (100 * Millisecond),
        .stopReturned 1 none,
        .stopReturned 0 (some DeadlineExceeded),
        .callbackInvoked 0 (30 * Millisecond),
        .callbackInvoked 1 (30 * Millisecond),
        .callbackReturned 0,
        .callbackReturned 1,
        .cancelled ] }

/-- An app with a negative `callbackTimeout` and no callback: two fake servers
that need 9s to stop, `waitTime` 10s, `callbackTimeout` -8s and `shutdownTimeout` 3s. -/
def negativeCallbackTimeoutApp : app :=
  { servers := [FakeServer "biz" "any" (9 * Second), FakeServer "adm" "any" (9 * Second)]
    callbacks := []
    opts :=
      { shutdownTimeout := 3 * Second
        waitTime := 10 * Second
        callbackTimeout := -8 * Second } }

end app

namespace server

/-- The part of an `http.Request` that routing looks at. -/
structure Request where
  Method : String
  Path : String
deriving DecidableEq, Repr

/-- What has been sent through an `http.ResponseWriter`: the status code of the
header (`none` while no header has been written) and the body. -/
structure ResponseWriter where
  status : Option Nat
  body : String
deriving DecidableEq, Repr

/-- The constant `http.StatusOK`. -/
def StatusOK : Nat := 200

/-- The constant `http.StatusServiceUnavailable`. -/
def StatusServiceUnavailable : Nat := 503

/-- The entries of `http.StatusText` for the two codes above (standard library). -/
def StatusText (code : Nat) : String :=
  if code = 503 then "Service Unavailable" else if code = 200 then "OK" else ""

/-- A response writer through which nothing has been sent, as `http.Server`
hands it to the handler of a request. -/
def ResponseWriter.fresh : ResponseWriter := ⟨none, ""⟩

/-- The method `WriteHeader` of `http.ResponseWriter`: the first header written counts. -/
def ResponseWriter.WriteHeader (w : ResponseWriter) (code : Nat) : ResponseWriter :=
  match w.status with
  | some _ => w
  | none => { w with status := some code }

/-- The method `Write` of `http.ResponseWriter`: writes the header with
`StatusOK` if none was written, then appends to the body. -/
def ResponseWriter.Write (w : ResponseWriter) (b : String) : ResponseWriter :=
  let w1 := w.WriteHeader StatusOK
  { w1 with body := w1.body ++ b }

/-- An `http.Handler`: what it sends for a request. -/
abbrev Handler := ResponseWriter → Request → ResponseWriter

/-- The registrations held by an `http.ServeMux` (standard library), in the
order they were made. -/
structure ServeMux where
  routes : List (String × Handler)

/-- The method `Handle` of `http.ServeMux`. -/
def ServeMux.Handle (m : ServeMux) (pattern : String) (handler : Handler) : ServeMux :=
  ⟨m.routes ++ [(pattern, handler)]⟩

/-- The struct `serveMux` (server.go:50-53): the flag `reject` and the embedded `*http.ServeMux`. -/
structure serveMux where
  reject : Bool
  inner : ServeMux

/-- The struct `Server` (server.go:14-19).  The field `srv` is the `http.Server`
whose handler is `mux`; its listener is outside the model. -/
structure Server where
  name : String
  addr : String
  mux : serveMux

/-- The function `New` (server.go:21-28): `reject` starts false and the mux empty. -/
def New (name addr : String) : Server :=
  { name := name, addr := addr, mux := { reject := false, inner := ⟨[]⟩ } }

/-- The method `Name` (server.go:30-32). -/
def Server.Name (s : Server) : String := s.name

/-- The method `Addr` (server.go:33-35). -/
def Server.Addr (s : Server) : String := s.addr

/-- The method `Handle` (server.go:37-39). -/
def Server.Handle (s : Server) (pattern : String) (handler : Handler) : Server :=
  { s with mux := { s.mux with inner := s.mux.inner.Handle pattern handler } }

/-- The method `Stop` (server.go:45-48): stores true in `reject`, then returns
what `srv.Shutdown(ctx)` returns, here the argument `shutdownResult`. -/
def Server.Stop (s : Server) (shutdownResult : Option app.error) : Server × Option app.error :=
  ({ s with mux := { s.mux with reject := true } }, shutdownResult)

/-- The method `serveMux.ServeHTTP` (server.go:55-63).  `std` is the method
`ServeHTTP` of the embedded `http.ServeMux` (standard library), which picks the
handler registered for the pattern matching the request and runs it. -/
def serveMux.ServeHTTP (std : ServeMux → Handler) (m : serveMux) (w : ResponseWriter)
    (r : Request) : ResponseWriter :=
  if m.reject then
    (w.WriteHeader StatusServiceUnavailable).Write (StatusText StatusServiceUnavailable)
  else
    std m.inner w r

/-- A call that changes the state of a server. -/
inductive Call where
  | Handle (pattern : String) (handler : Handler)
  | Stop (shutdownResult : Option app.error)

/-- Whether the call is a call of `Stop`. -/
def Call.isStop : Call → Bool
  | .Stop _ => true
  | .Handle _ _ => false

/-- The server after one call. -/
def Server.after (s : Server) : Call → Server
  | .Handle p h => s.Handle p h
  | .Stop e => (s.Stop e).1

/-- The server after a sequence of calls, the first of the list made first. -/
def Server.afterAll (s : Server) (calls : List Call) : Server :=
  calls.foldl Server.after s

/-- The registrations made by a sequence of calls, in order. -/
def registered : List Call → List (String × Handler)
  | [] => []
  | .Handle p h :: cs => (p, h) :: registered cs
  | .Stop _ :: cs => registered cs

/-- A handler that writes "OK" (server_test.go:27-29). -/
def okHandler : Handler := fun w _ => w.Write "OK"

/-- A simple stand-in for the dispatch of `http.ServeMux`: the first handler
registered for exactly the path of the request, else status 404. -/
def exactMatchMux : ServeMux → Handler := fun m w r =>
  match m.routes.find? (fun ph => ph.1 == r.Path) with
  | some ph => ph.2 w r
  | none => (w.WriteHeader 404).Write "404 page not found"

end server

namespace app

/-! ## Construction -/

theorem foldl_servers (cs : List OptionCall) (a : app) :
    ((cs.map OptionCall.toOption).foldl (fun acc opt => opt acc) a).servers = a.servers := by
  induction cs generalizing a with
  | nil => rfl
  | cons c cs ih =>
    simp only [List.map_cons, List.foldl_cons]
    rw [ih]
    cases c <;> rfl

theorem foldl_shutdownTimeout (cs : List OptionCall) (a : app) :
    ((cs.map OptionCall.toOption).foldl (fun acc opt => opt acc) a).opts.shutdownTimeout
      = (lastSupplied OptionCall.shutdownTimeout? cs).getD a.opts.shutdownTimeout := by
  induction cs generalizing a with
  | nil => rfl
  | cons c cs ih =>
    simp only [List.map_cons, List.foldl_cons, lastSupplied]
    rw [ih]
    cases h : lastSupplied OptionCall.shutdownTimeout? cs with
    | some v => rfl
    | none => cases c <;> rfl

theorem foldl_waitTime (cs : List OptionCall) (a : app) :
    ((cs.map OptionCall.toOption).foldl (fun acc opt => opt acc) a).opts.waitTime
      = (lastSupplied OptionCall.waitTimeout? cs).getD a.opts.waitTime := by
  induction cs generalizing a with
  | nil => rfl
  | cons c cs ih =>
    simp only [List.map_cons, List.foldl_cons, lastSupplied]
    rw [ih]
    cases h : lastSupplied OptionCall.waitTimeout? cs with
    | some v => rfl
    | none => cases c <;> rfl

theorem foldl_callbackTimeout (cs : List OptionCall) (a : app) :
    ((cs.map OptionCall.toOption).foldl (fun acc opt => opt acc) a).opts.callbackTimeout
      = (lastSupplied OptionCall.callbackTimeout? cs).getD a.opts.callbackTimeout := by
  induction cs generalizing a with
  | nil => rfl
  | cons c cs ih =>
    simp only [List.map_cons, List.foldl_cons, lastSupplied]
    rw [ih]
    cases h : lastSupplied OptionCall.callbackTimeout? cs with
    | some v => rfl
    | none => cases c <;> rfl

theorem foldl_callbacks (cs : List OptionCall) (a : app) :
    ((cs.map OptionCall.toOption).foldl (fun acc opt => opt acc) a).callbacks
      = (lastSupplied OptionCall.shutdownCallbacks? cs).getD a.callbacks := by
  induction cs generalizing a with
  | nil => rfl
  | cons c cs ih =>
    simp only [List.map_cons, List.foldl_cons, lastSupplied]
    rw [ih]
    cases h : lastSupplied OptionCall.shutdownCallbacks? cs with
    | some v => rfl
    | none => cases c <;> rfl

theorem New_of_two_le (servers : List Server) (opts : List option) (h : 2 ≤ servers.length) :
    New servers opts =
      (some (opts.foldl (fun acc opt => opt acc)
        ⟨servers, [], ⟨30 * Second, 10 * Second, 3 * Second⟩⟩), none) := by
  have h2 : ¬ servers.length < 2 := by omega
  simp only [New, h2, if_false]

/-- C7: the exit codes `InterruptExitCode` and `TimeoutExitCode` differ from
each other, and each differs from 0 and from 1. -/
theorem exit_codes_distinct :
    InterruptExitCode ≠ TimeoutExitCode ∧
    InterruptExitCode ≠ 0 ∧ InterruptExitCode ≠ 1 ∧
    TimeoutExitCode ≠ 0 ∧ TimeoutExitCode ≠ 1 := by
  decide

/-- C1: for every list of servers and every list of options, `New` returns the
nil app with `ErrAtLeastOneServer` exactly when there are fewer than two servers,
and returns a nil error with an app holding exactly the given servers, in the
given order, exactly when there are two or more. -/
theorem New_fails_iff_fewer_than_two (servers : List Server) (cs : List OptionCall) :
    (New servers (cs.map OptionCall.toOption) = (none, some ErrAtLeastOneServer)
        ↔ servers.length < 2) ∧
    ((∃ a, New servers (cs.map OptionCall.toOption) = (some a, none) ∧ a.servers = servers)
        ↔ 2 ≤ servers.length) := by
  by_cases h : servers.length < 2
  · simp [New, h]
  · have h2 : 2 ≤ servers.length := by omega
    simp only [New, h, if_false, Prod.mk.injEq, Option.some.injEq, and_true, reduceCtorEq,
      false_and, h2, iff_true]
    exact ⟨trivial, _, rfl, foldl_servers cs _⟩

/-- C8: with at least two servers, the app `New` returns has the durations and
callbacks the specification describes (the defaults 30s, 10s, 3s and no
callbacks, each replaced by the last value an option supplied for it); with no
option at all these are exactly 30s, 10s, 3s and no callbacks. -/
theorem New_config_last_option_wins (servers : List Server) (cs : List OptionCall)
    (h : 2 ≤ servers.length) :
    (∃ a, New servers (cs.map OptionCall.toOption) = (some a, none) ∧
      a.opts = specOptions cs ∧ a.callbacks = specCallbacks cs) ∧
    (∃ a, New servers [] = (some a, none) ∧
      a.opts = ⟨30 * Second, 10 * Second, 3 * Second⟩ ∧ a.callbacks = []) := by
  refine ⟨⟨_, New_of_two_le servers _ h, ?_, ?_⟩, ⟨_, New_of_two_le servers [] h, rfl, rfl⟩⟩
  · have e1 := foldl_shutdownTimeout cs
      ⟨servers, [], ⟨30 * Second, 10 * Second, 3 * Second⟩⟩
    have e2 := foldl_waitTime cs
      ⟨servers, [], ⟨30 * Second, 10 * Second, 3 * Second⟩⟩
    have e3 := foldl_callbackTimeout cs
      ⟨servers, [], ⟨30 * Second, 10 * Second, 3 * Second⟩⟩
    generalize ((cs.map OptionCall.toOption).foldl (fun acc opt => opt acc)
      (⟨servers, [], ⟨30 * Second, 10 * Second, 3 * Second⟩⟩ : app)) = r at e1 e2 e3
    rcases r with ⟨sv, cb, ⟨o1, o2, o3⟩⟩
    simp only at e1 e2 e3
    simp only [specOptions, e1, e2, e3]
  · exact foldl_callbacks cs ⟨servers, [], ⟨30 * Second, 10 * Second, 3 * Second⟩⟩

/-! ## The race between forced exit, timeout and graceful completion -/

theorem joinAll_ge (t : Time) (ls : List (Option Nat)) (u : Time)
    (h : joinAll t ls = some u) : t ≤ u := by
  induction ls generalizing u with
  | nil =>
    simp only [joinAll, Option.some.injEq] at h
    exact le_of_eq h
  | cons l ls ih =>
    cases l with
    | none => simp [joinAll] at h
    | some d =>
      cases hj : joinAll t ls with
      | none => simp [joinAll, hj] at h
      | some v =>
        simp only [joinAll, hj, Option.map_some', Option.some.injEq] at h
        have := ih v hj
        rw [← h]
        exact le_trans this (le_max_right _ _)

theorem completion_ge (a : app) (t0 t2 : Time) (h : completion a t0 = some t2) : t0 ≤ t2 := by
  unfold completion at h
  cases h1 : stopAllServers a t0 with
  | none => simp [h1] at h
  | some t1 =>
    rw [h1] at h
    simp only [Option.some_bind] at h
    have a1 := joinAll_ge _ _ _ h1
    have a2 := joinAll_ge _ _ _ h
    exact le_trans a1 a2

theorem le_timeAfter (t : Time) (d : Duration) : t ≤ timeAfter t d := by
  unfold timeAfter
  simp only [Time, Duration] at *
  omega

theorem forceShutdown_signal (a : app) (t s : Time) (done : Option Time)
    (hs : t ≤ s) (hd : s < timeAfter t a.opts.shutdownTimeout)
    (hc : ∀ t2, done = some t2 → s < t2) :
    forceShutdown a t (some s) done = [Ending.exit InterruptExitCode] := by
  have e1 : max t s = s := max_eq_right hs
  have e2 : min (timeAfter t a.opts.shutdownTimeout) s = s := min_eq_right (le_of_lt hd)
  have e3 : timeAfter t a.opts.shutdownTimeout ≠ s := ne_of_gt hd
  cases done with
  | none =>
    simp [forceShutdown, earlier, e1, e2, e3]
  | some t2 =>
    have h2 := hc t2 rfl
    have e4 : max t t2 = t2 := max_eq_right (le_trans hs (le_of_lt h2))
    have e5 : min s t2 = s := min_eq_left (le_of_lt h2)
    have e6 : t2 ≠ s := ne_of_gt h2
    simp [forceShutdown, earlier, e1, e2, e3, e4, e5, e6]

theorem forceShutdown_timeout (a : app) (t : Time) (done : Option Time)
    (hc : ∀ t2, done = some t2 → timeAfter t a.opts.shutdownTimeout < t2) :
    forceShutdown a t none done = [Ending.exit TimeoutExitCode] := by
  have ht := le_timeAfter t a.opts.shutdownTimeout
  cases done with
  | none => simp [forceShutdown, earlier]
  | some t2 =>
    have h2 := hc t2 rfl
    have e4 : max t t2 = t2 := max_eq_right (le_trans ht (le_of_lt h2))
    have e5 : min (timeAfter t a.opts.shutdownTimeout) t2 = timeAfter t a.opts.shutdownTimeout :=
      min_eq_left (le_of_lt h2)
    have e6 : t2 ≠ timeAfter t a.opts.shutdownTimeout := ne_of_gt h2
    simp [forceShutdown, earlier, e4, e5, e6]

theorem forceShutdown_done (a : app) (t t2 : Time) (h0 : t ≤ t2)
    (hlt : t2 < timeAfter t a.opts.shutdownTimeout) :
    forceShutdown a t none (some t2) = [Ending.returned] := by
  have e4 : max t t2 = t2 := max_eq_right h0
  have e5 : min (timeAfter t a.opts.shutdownTimeout) t2 = t2 := min_eq_right (le_of_lt hlt)
  have e6 : timeAfter t a.opts.shutdownTimeout ≠ t2 := ne_of_gt hlt
  simp [forceShutdown, earlier, e4, e5, e6]

theorem graceful_shutdown_of_completion (a : app) (t0 t2 : Time)
    (h : completion a t0 = some t2) (hlt : t2 - t0 < a.opts.shutdownTimeout) :
    shutdown a [t0] = some [Ending.returned] := by
  have h0 := completion_ge a t0 t2 h
  have hlt2 : t2 < timeAfter t0 a.opts.shutdownTimeout := by
    unfold timeAfter
    simp only [Time, Duration] at *
    omega
  simp only [shutdown, List.head?_nil, h, forceShutdown_done a t0 t2 h0 hlt2]

theorem stepRace_signal_only (a : app) (s : State) (hex : s.exited = none)
    (hr : s.race = Race.selecting) (hsig : s.sigs ≠ 0) (ht : s.timerFired = false)
    (hd : s.ctxDone = false) :
    (∃ s1, step a s (Action.raceTake SelectCase.signal) = some s1) ∧
    ∀ c s1, step a s (Action.raceTake c) = some s1 →
      c = SelectCase.signal ∧ s1.exited = some InterruptExitCode := by
  have hex2 : s.exited.isSome = false := by rw [hex]; rfl
  constructor
  · simp only [step, hex2, Bool.false_eq_true, if_false, stepRace, hr, if_true, hsig]
    exact ⟨_, rfl⟩
  · intro c s1 h
    cases c with
    | signal =>
      simp only [step, hex2, Bool.false_eq_true, if_false, stepRace, hr, if_true, hsig,
        Option.some.injEq] at h
      rw [← h]
      exact ⟨rfl, rfl⟩
    | timeout =>
      simp [step, hex2, stepRace, hr, ht] at h
    | done =>
      simp [step, hex2, stepRace, hr, hd] at h

theorem stepRace_timeout_only (a : app) (s : State) (hex : s.exited = none)
    (hr : s.race = Race.selecting) (hsig : s.sigs = 0) (ht : s.timerFired = true)
    (hd : s.ctxDone = false) :
    (∃ s1, step a s (Action.raceTake SelectCase.timeout) = some s1) ∧
    ∀ c s1, step a s (Action.raceTake c) = some s1 →
      c = SelectCase.timeout ∧ s1.exited = some TimeoutExitCode := by
  have hex2 : s.exited.isSome = false := by rw [hex]; rfl
  constructor
  · simp only [step, hex2, Bool.false_eq_true, if_false, stepRace, hr, if_true, ht]
    exact ⟨_, rfl⟩
  · intro c s1 h
    cases c with
    | signal =>
      simp [step, hex2, stepRace, hr, hsig] at h
    | timeout =>
      simp only [step, hex2, Bool.false_eq_true, if_false, stepRace, hr, if_true, ht,
        Option.some.injEq] at h
      rw [← h]
      exact ⟨rfl, rfl⟩
    | done =>
      simp [step, hex2, stepRace, hr, hd] at h

theorem stepRace_done_only (a : app) (s : State) (hex : s.exited = none)
    (hr : s.race = Race.selecting) (hsig : s.sigs = 0) (ht : s.timerFired = false)
    (hd : s.ctxDone = true) :
    (∃ s1, step a s (Action.raceTake SelectCase.done) = some s1) ∧
    ∀ c s1, step a s (Action.raceTake c) = some s1 →
      c = SelectCase.done ∧ s1.exited = none ∧ s1.race = Race.ended ∧ s1.trace = s.trace := by
  have hex2 : s.exited.isSome = false := by rw [hex]; rfl
  constructor
  · simp only [step, hex2, Bool.false_eq_true, if_false, stepRace, hr, if_true, hd]
    exact ⟨_, rfl⟩
  · intro c s1 h
    cases c with
    | signal =>
      simp [step, hex2, stepRace, hr, hsig] at h
    | timeout =>
      simp [step, hex2, stepRace, hr, ht] at h
    | done =>
      simp only [step, hex2, Bool.false_eq_true, if_false, stepRace, hr, if_true, hd,
        Option.some.injEq] at h
      rw [← h]
      exact ⟨rfl, hex, rfl, rfl⟩

/-- C2: when a second signal reaches the signal queue at `s2`, after the first
signal (received at `t0`), before the deadline of `forceShutdown` fires and
before the completion context is cancelled, `forceShutdown` can only end in
`os.Exit(InterruptExitCode)`, whatever the fan-outs are doing, and so the
process ends with that code.  In terms of the `select` of `forceShutdown`:
with a signal in the queue, the timer not fired and the context not cancelled,
the `select` can proceed, only by the signal case, and the process exits with
`InterruptExitCode`; once the process has exited no goroutine takes a step. -/
theorem second_signal_forces_exit (a : app) (t0 s2 : Time) (rest : List Time)
    (hs : t0 ≤ s2)
    (hd : s2 < timeAfter t0 a.opts.shutdownTimeout)
    (hc : ∀ t2, completion a t0 = some t2 → s2 < t2) :
    (∀ done : Option Time, (∀ t2, done = some t2 → s2 < t2) →
      forceShutdown a t0 (some s2) done = [Ending.exit InterruptExitCode]) ∧
    shutdown a (t0 :: s2 :: rest) = some [Ending.exit InterruptExitCode] ∧
    (∀ s : State, s.exited = none → s.race = Race.selecting → s.sigs ≠ 0 →
      s.timerFired = false → s.ctxDone = false →
      (∃ s1, step a s (Action.raceTake SelectCase.signal) = some s1) ∧
      ∀ c s1, step a s (Action.raceTake c) = some s1 →
        c = SelectCase.signal ∧ s1.exited = some InterruptExitCode) ∧
    (∀ (s : State) (code : Int) (act : Action), s.exited = some code → step a s act = none) := by
  refine ⟨fun done hdone => forceShutdown_signal a t0 s2 done hs hd hdone, ?_,
    fun s h1 h2 h3 h4 h5 => stepRace_signal_only a s h1 h2 h3 h4 h5, ?_⟩
  · simp only [shutdown, List.head?_cons]
    rw [forceShutdown_signal a t0 s2 _ hs hd hc]
  · intro s code act hex
    simp [step, hex]

/-- C3: when the first signal is received at `t0`, no second signal arrives,
and the two fan-outs have not both finished at the instant the timer of
`shutdownTimeout` fires (they finish later, or never), the process can only end
in `os.Exit(TimeoutExitCode)`.  In terms of the `select` of `forceShutdown`:
with the timer fired, no signal in the queue and the context not cancelled,
the `select` can proceed, only by the timeout case, and the process exits with
`TimeoutExitCode`. -/
theorem timeout_exit_when_fanouts_late (a : app) (t0 : Time)
    (h : ∀ t2, completion a t0 = some t2 → timeAfter t0 a.opts.shutdownTimeout < t2) :
    shutdown a [t0] = some [Ending.exit TimeoutExitCode] ∧
    (∀ s : State, s.exited = none → s.race = Race.selecting → s.sigs = 0 →
      s.timerFired = true → s.ctxDone = false →
      (∃ s1, step a s (Action.raceTake SelectCase.timeout) = some s1) ∧
      ∀ c s1, step a s (Action.raceTake c) = some s1 →
        c = SelectCase.timeout ∧ s1.exited = some TimeoutExitCode) := by
  refine ⟨?_, fun s h1 h2 h3 h4 h5 => stepRace_timeout_only a s h1 h2 h3 h4 h5⟩
  simp only [shutdown, List.head?_nil]
  rw [forceShutdown_timeout a t0 _ h]

/-- C4: when the first signal is received at `t0`, no second signal arrives, and
both fan-outs have finished at `t2` with `t2 - t0 < shutdownTimeout`, the race
can only end through the cancelled context, by returning, and `StartAndServe`
returns without any `os.Exit`.  In terms of the `select` of `forceShutdown`:
with the context cancelled, no signal in the queue and the timer not fired,
the `select` can proceed, only by the case `ctx.Done()`, after which the
goroutine has ended and the process has no exit status and no new event. -/
theorem graceful_return_within_timeout (a : app) (t0 t2 : Time)
    (h : completion a t0 = some t2) (hlt : t2 - t0 < a.opts.shutdownTimeout) :
    forceShutdown a t0 none (some t2) = [Ending.returned] ∧
    shutdown a [t0] = some [Ending.returned] ∧
    Ending.exit InterruptExitCode ∉ (shutdown a [t0]).getD [] ∧
    Ending.exit TimeoutExitCode ∉ (shutdown a [t0]).getD [] ∧
    (∀ s : State, s.exited = none → s.race = Race.selecting → s.sigs = 0 →
      s.timerFired = false → s.ctxDone = true →
      (∃ s1, step a s (Action.raceTake SelectCase.done) = some s1) ∧
      ∀ c s1, step a s (Action.raceTake c) = some s1 →
        c = SelectCase.done ∧ s1.exited = none ∧ s1.race = Race.ended ∧ s1.trace = s.trace) := by
  have h0 := completion_ge a t0 t2 h
  have hlt2 : t2 < timeAfter t0 a.opts.shutdownTimeout := by
    unfold timeAfter
    simp only [Time, Duration] at *
    omega
  have e := forceShutdown_done a t0 t2 h0 hlt2
  have e2 : shutdown a [t0] = some [Ending.returned] := by
    simp only [shutdown, List.head?_nil, h, e]
  refine ⟨e, e2, ?_, ?_, fun s h1 h2 h3 h4 h5 => stepRace_done_only a s h1 h2 h3 h4 h5⟩ <;>
    simp [e2]

end app

namespace app

/-! ## Fan-outs whose members respect their deadlines -/

theorem joinAll_le (t : Time) (B : Int) (hB : 0 ≤ B) (ls : List (Option Nat))
    (h : ∀ l ∈ ls, ∃ d : Nat, l = some d ∧ (d : Int) ≤ B) :
    ∃ u, joinAll t ls = some u ∧ u ≤ t + B := by
  induction ls with
  | nil =>
    refine ⟨t, rfl, ?_⟩
    simp only [Time] at *
    omega
  | cons l ls ih =>
    obtain ⟨d, hl, hd⟩ := h l (List.mem_cons_self _ _)
    obtain ⟨u, hu, hub⟩ := ih (fun x hx => h x (List.mem_cons_of_mem _ hx))
    subst hl
    refine ⟨max (t + d) u, by simp [joinAll, hu], ?_⟩
    apply max_le
    · simp only [Time] at *
      omega
    · exact hub

theorem joinAll_le_of_ne_nil (t : Time) (B : Int) (ls : List (Option Nat)) (hne : ls ≠ [] ∨ 0 ≤ B)
    (h : ∀ l ∈ ls, ∃ d : Nat, l = some d ∧ (d : Int) ≤ B) :
    ∃ u, joinAll t ls = some u ∧ u ≤ t + B := by
  have hB : 0 ≤ B := by
    rcases hne with hne | hB
    · cases ls with
      | nil => exact absurd rfl hne
      | cons l ls =>
        obtain ⟨d, _, hd⟩ := h l (List.mem_cons_self _ _)
        omega
    · exact hB
  exact joinAll_le t B hB ls h

theorem New_some_length (servers : List Server) (opts : List option) (a : app)
    (h : New servers opts = (some a, none)) : 2 ≤ servers.length := by
  by_cases h2 : servers.length < 2
  · simp [New, h2] at h
  · omega

/-- C10 (as amended): take an app `a` accepted by `New` in which every `Stop`
call and every callback returns no later than its context deadline, and in
which `callbackTimeout` is not negative or at least one callback is registered.
Then the stop fan-out returns within `waitTime` of the first signal and the
callback fan-out within `callbackTimeout` after that, so both are finished
within `waitTime + callbackTimeout`; if moreover
`waitTime + callbackTimeout < shutdownTimeout`, as with the defaults, a
shutdown with no second signal returns gracefully and never ends with
`TimeoutExitCode`.  `New` does not enforce the bound: it accepts any three durations. -/
theorem fanouts_within_deadlines_never_time_out (servers : List Server) (cs : List OptionCall)
    (a : app) (t0 : Time)
    (hnew : New servers (cs.map OptionCall.toOption) = (some a, none))
    (hstop : ∀ s ∈ a.servers, ∃ d : Nat,
      (s.Stop a.opts.waitTime).latency = some d ∧ (d : Int) ≤ a.opts.waitTime)
    (hcb : ∀ c ∈ a.callbacks, ∃ d : Nat,
      c a.opts.callbackTimeout = some d ∧ (d : Int) ≤ a.opts.callbackTimeout)
    (hnn : a.callbacks ≠ [] ∨ 0 ≤ a.opts.callbackTimeout) :
    (∃ t1 t2, stopAllServers a t0 = some t1 ∧ t1 ≤ t0 + a.opts.waitTime ∧
      executeAllCallbacks a t1 = some t2 ∧ t2 ≤ t1 + a.opts.callbackTimeout ∧
      completion a t0 = some t2 ∧ t2 ≤ t0 + (a.opts.waitTime + a.opts.callbackTimeout)) ∧
    (a.opts.waitTime + a.opts.callbackTimeout < a.opts.shutdownTimeout →
      shutdown a [t0] = some [Ending.returned] ∧
      Ending.exit TimeoutExitCode ∉ (shutdown a [t0]).getD []) ∧
    (∀ a0, New servers [] = (some a0, none) →
      a0.opts.waitTime + a0.opts.callbackTimeout < a0.opts.shutdownTimeout) ∧
    (∀ w c sh : Duration, ∃ a1,
      New servers [WithWaitTimeout w, WithCallbackTimeout c, WithShutdownTimeout sh]
        = (some a1, none) ∧ a1.opts = ⟨sh, w, c⟩) := by
  have hlen := New_some_length _ _ _ hnew
  have hsrv : a.servers = servers := by
    rw [New_of_two_le servers _ hlen] at hnew
    simp only [Prod.mk.injEq, Option.some.injEq, and_true] at hnew
    rw [← hnew]
    exact foldl_servers cs _
  have hsne : a.servers ≠ [] := by
    intro h0
    rw [hsrv] at h0
    rw [h0] at hlen
    simp at hlen
  obtain ⟨t1, h1, b1⟩ := joinAll_le_of_ne_nil t0 a.opts.waitTime
    (a.servers.map fun s => (s.Stop a.opts.waitTime).latency)
    (Or.inl (by simpa using hsne))
    (by
      intro l hl
      obtain ⟨s, hs, rfl⟩ := List.mem_map.mp hl
      exact hstop s hs)
  obtain ⟨t2, h2, b2⟩ := joinAll_le_of_ne_nil t1 a.opts.callbackTimeout
    (a.callbacks.map fun c => c a.opts.callbackTimeout)
    (by
      rcases hnn with h | h
      · exact Or.inl (by simpa using h)
      · exact Or.inr h)
    (by
      intro l hl
      obtain ⟨c, hc, rfl⟩ := List.mem_map.mp hl
      exact hcb c hc)
  have hcomp : completion a t0 = some t2 := by
    simp only [completion, stopAllServers, executeAllCallbacks, h1, Option.some_bind, h2]
  have b3 : t2 ≤ t0 + (a.opts.waitTime + a.opts.callbackTimeout) := by
    simp only [Time, Duration] at *
    omega
  refine ⟨⟨t1, t2, h1, b1, h2, b2, hcomp, b3⟩, ?_, ?_, ?_⟩
  · intro hlt
    have hlt2 : t2 - t0 < a.opts.shutdownTimeout := by
      simp only [Time, Duration] at *
      omega
    have e := (graceful_shutdown_of_completion a t0 t2 hcomp hlt2)
    rw [e]
    exact ⟨rfl, by simp⟩
  · intro a0 h0
    rw [New_of_two_le servers _ hlen] at h0
    simp only [List.foldl_nil, Prod.mk.injEq, Option.some.injEq, and_true] at h0
    rw [← h0]
    show (10 * Second + 3 * Second : Int) < 30 * Second
    decide
  · intro w c sh
    exact ⟨_, New_of_two_le servers _ hlen, rfl⟩

/-- C10, counterexample to the claim as stated: `New` accepts two servers that
stop after 9s with `callbackTimeout` -8s and `shutdownTimeout` 3s.  Every `Stop`
returns before its deadline (9s of 10s), there is no callback, and
`waitTime + callbackTimeout` is 2s, less than `shutdownTimeout`; yet the
fan-outs finish 9s after the signal, not within 2s, and the shutdown with a
single signal ends with `TimeoutExitCode`. -/
theorem negative_callbackTimeout_times_out :
    New negativeCallbackTimeoutApp.servers
        [WithCallbackTimeout (-8 * Second), WithShutdownTimeout (3 * Second)]
      = (some negativeCallbackTimeoutApp, none) ∧
    (∀ s ∈ negativeCallbackTimeoutApp.servers, ∃ d : Nat,
      (s.Stop negativeCallbackTimeoutApp.opts.waitTime).latency = some d ∧
      (d : Int) ≤ negativeCallbackTimeoutApp.opts.waitTime) ∧
    (∀ c ∈ negativeCallbackTimeoutApp.callbacks, ∃ d : Nat,
      c negativeCallbackTimeoutApp.opts.callbackTimeout = some d ∧
      (d : Int) ≤ negativeCallbackTimeoutApp.opts.callbackTimeout) ∧
    negativeCallbackTimeoutApp.opts.waitTime + negativeCallbackTimeoutApp.opts.callbackTimeout
      < negativeCallbackTimeoutApp.opts.shutdownTimeout ∧
    completion negativeCallbackTimeoutApp 0 = some (9 * Second) ∧
    ¬ (9 * Second ≤ 0 + (negativeCallbackTimeoutApp.opts.waitTime
        + negativeCallbackTimeoutApp.opts.callbackTimeout)) ∧
    shutdown negativeCallbackTimeoutApp [0] = some [Ending.exit TimeoutExitCode] := by
  refine ⟨rfl, ?_, ?_, by decide, by decide, by decide, by decide⟩
  · intro s hs
    simp only [negativeCallbackTimeoutApp, List.mem_cons, List.mem_singleton, List.not_mem_nil,
      or_false] at hs
    rcases hs with rfl | rfl <;> exact ⟨9000000000, by decide, by decide⟩
  · intro c hc
    simp [negativeCallbackTimeoutApp] at hc

/-! ## The fan-outs as goroutines: invariant of the interleaving semantics -/

theorem getElem?_set_some {l : List Member} {i k : Nat} {v g : Member}
    (h : (l.set i v)[k]? = some g) : (k = i ∧ g = v) ∨ (k ≠ i ∧ l[k]? = some g) := by
  rw [List.getElem?_set] at h
  by_cases hik : i = k
  · subst hik
    simp only [if_true] at h
    split at h
    · left
      exact ⟨rfl, (Option.some.inj h).symm⟩
    · cases h
  · simp only [hik, if_false] at h
    right
    exact ⟨fun e => hik e.symm, h⟩

theorem countP_set_of_getElem? (p : Member → Bool) (l : List Member) (i : Nat) (u v : Member)
    (h : l[i]? = some u) :
    (l.set i v).countP p + (if p u then 1 else 0) = l.countP p + (if p v then 1 else 0) := by
  induction l generalizing i with
  | nil => simp at h
  | cons x xs ih =>
    cases i with
    | zero =>
      simp only [List.getElem?_cons_zero, Option.some.injEq] at h
      subst h
      simp only [List.set_cons_zero, List.countP_cons]
      omega
    | succ n =>
      simp only [List.getElem?_cons_succ] at h
      have := ih n h
      simp only [List.set_cons_succ, List.countP_cons]
      omega

theorem AllAre.absurd_of_ne {l : List Member} {m u : Member} {i : Nat} (h : AllAre l m)
    (hu : l[i]? = some u) (hne : u ≠ m) : False :=
  hne (h i u hu)

theorem NoneIdle.set_noneIdle {l : List Member} (h : NoneIdle l) (i : Nat) {v : Member}
    (hv : v ≠ Member.idle) : NoneIdle (l.set i v) := by
  intro k g hk
  rcases getElem?_set_some hk with ⟨_, rfl⟩ | ⟨_, hg⟩
  · exact hv
  · exact h k g hg

theorem IdleFrom.set_idleFrom {l : List Member} {n : Nat} (h : IdleFrom l n) {i : Nat} {u v : Member}
    (hu : l[i]? = some u) (hun : u ≠ Member.idle) (hv : v ≠ Member.idle) :
    IdleFrom (l.set i v) n := by
  intro k g hk
  rcases getElem?_set_some hk with ⟨rfl, rfl⟩ | ⟨_, hg⟩
  · have := h k u hu
    constructor
    · intro e
      exact absurd e hv
    · intro e
      exact absurd (this.mpr e) hun
  · exact h k g hg

theorem IdleFrom.spawn {l : List Member} {n : Nat} (h : IdleFrom l n) :
    IdleFrom (l.set n Member.spawned) (n + 1) := by
  intro k g hk
  rcases getElem?_set_some hk with ⟨rfl, rfl⟩ | ⟨hne, hg⟩
  · constructor
    · intro e
      cases e
    · intro e
      omega
  · have := h k g hg
    constructor
    · intro e
      have := this.mp e
      omega
    · intro e
      exact this.mpr (by omega)

theorem IdleFrom.get_idle {l : List Member} {n : Nat} (h : IdleFrom l n) (hn : n < l.length) :
    l[n]? = some Member.idle := by
  obtain ⟨g, hg⟩ : ∃ g, l[n]? = some g := ⟨l[n], List.getElem?_eq_getElem hn⟩
  rw [hg, (h n g hg).mpr le_rfl]

theorem IdleFrom.noneIdle {l : List Member} {n : Nat} (h : IdleFrom l n) (hn : ¬ n < l.length) :
    NoneIdle l := by
  intro k g hk e
  have h1 := (h k g hk).mp e
  have h2 : k < l.length := (List.getElem?_eq_some.mp hk).1
  omega

theorem AllAre.idleFrom_zero {l : List Member} (h : AllAre l Member.idle) : IdleFrom l 0 := by
  intro k g hk
  constructor
  · intro _
    exact Nat.zero_le k
  · intro _
    exact h k g hk

theorem NoneIdle.allDone {l : List Member} (h : NoneIdle l)
    (hc : l.countP Member.pending = 0) : AllAre l Member.done := by
  intro k g hk
  have hm : g ∈ l := List.getElem?_mem hk
  have hp := List.countP_eq_zero.mp hc g hm
  have hi := h k g hk
  cases g <;> simp_all [Member.pending]

theorem count_inv_set (f : Nat → Event → Bool) (q : Member → Bool) (tr es : List Event)
    (l : List Member) (i : Nat) (u v : Member)
    (H : ∀ k g, l[k]? = some g → tr.countP (f k) = if q g then 1 else 0)
    (hu : l[i]? = some u)
    (hi : (if q u then 1 else 0) + es.countP (f i) = if q v then 1 else 0)
    (hk : ∀ k, k ≠ i → es.countP (f k) = 0) :
    ∀ k g, (l.set i v)[k]? = some g → (tr ++ es).countP (f k) = if q g then 1 else 0 := by
  intro k g hg
  rw [List.countP_append]
  rcases getElem?_set_some hg with ⟨rfl, rfl⟩ | ⟨hne, hg2⟩
  · rw [H k u hu]
    exact hi
  · rw [H k g hg2, hk k hne]
    rfl

theorem count_inv_append (f : Nat → Event → Bool) (q : Member → Bool) (tr es : List Event)
    (l : List Member)
    (H : ∀ k g, l[k]? = some g → tr.countP (f k) = if q g then 1 else 0)
    (hk : ∀ k, es.countP (f k) = 0) :
    ∀ k g, l[k]? = some g → (tr ++ es).countP (f k) = if q g then 1 else 0 := by
  intro k g hg
  rw [List.countP_append, H k g hg, hk k]
  rfl

theorem append_singleton_split {pre post tr : List Event} {x e : Event}
    (h : tr ++ [e] = pre ++ x :: post) :
    (post = [] ∧ x = e ∧ pre = tr) ∨ (∃ post1, post = post1 ++ [e] ∧ tr = pre ++ x :: post1) := by
  rcases List.eq_nil_or_concat post with rfl | ⟨L, b, rfl⟩
  · left
    have h2 : tr ++ [e] = pre ++ [x] := h
    have := List.append_inj' h2 rfl
    simp only [List.cons.injEq, and_true] at this
    exact ⟨rfl, this.2.symm, this.1.symm⟩
  · right
    rw [List.concat_eq_append] at h ⊢
    have h2 : tr ++ [e] = (pre ++ x :: L) ++ [b] := by
      rw [h]
      simp
    have := List.append_inj' h2 rfl
    simp only [List.cons.injEq, and_true] at this
    exact ⟨L, by rw [this.2], this.1⟩

theorem StopsBeforeCallbacks.append {n : Nat} {tr : List Event} (h : StopsBeforeCallbacks n tr)
    (e : Event) (he : ∀ j d, e ≠ Event.callbackInvoked j d) :
    StopsBeforeCallbacks n (tr ++ [e]) := by
  intro pre post j d heq i hi
  rcases append_singleton_split heq with ⟨_, hx, _⟩ | ⟨post1, _, htr⟩
  · exact absurd hx.symm (he j d)
  · exact h pre post1 j d htr i hi

theorem StopsBeforeCallbacks.append_callback {n : Nat} {tr : List Event}
    (h : StopsBeforeCallbacks n tr) (j : Nat) (d : Duration)
    (hall : ∀ i, i < n → ∃ e, Event.stopReturned i e ∈ tr) :
    StopsBeforeCallbacks n (tr ++ [Event.callbackInvoked j d]) := by
  intro pre post j1 d1 heq i hi
  rcases append_singleton_split heq with ⟨_, _, hpre⟩ | ⟨post1, _, htr⟩
  · rw [hpre]
    exact hall i hi
  · exact h pre post1 j1 d1 htr i hi

theorem exists_stopReturned_of_countP {tr : List Event} {i : Nat}
    (h : tr.countP (Event.stopReturnOf i) = 1) : ∃ e, Event.stopReturned i e ∈ tr := by
  have hpos : 0 < tr.countP (Event.stopReturnOf i) := by omega
  obtain ⟨ev, hev, hp⟩ := List.countP_pos_iff.mp hpos
  cases ev <;> simp [Event.stopReturnOf] at hp
  case stopReturned k err =>
    subst hp
    exact ⟨err, hev⟩

theorem Inv.initial (a : app) : Inv a (init a) where
  lenS := by simp [init]
  lenC := by simp [init]
  wgS := by
    simp only [init]
    symm
    rw [List.countP_eq_zero]
    intro g hg
    rw [List.eq_of_mem_replicate hg]
    decide
  wgC := by
    simp only [init]
    symm
    rw [List.countP_eq_zero]
    intro g hg
    rw [List.eq_of_mem_replicate hg]
    decide
  phase := by
    constructor
    · intro k g hk
      exact List.eq_of_mem_replicate (List.getElem?_mem hk)
    · intro k g hk
      exact List.eq_of_mem_replicate (List.getElem?_mem hk)
  calls := by
    intro k g hk
    have hg : g = Member.idle := List.eq_of_mem_replicate (List.getElem?_mem hk)
    subst hg
    rfl
  callsT := by
    intro k d hmem
    simp [init] at hmem
  rets := by
    intro k g hk
    have hg : g = Member.idle := List.eq_of_mem_replicate (List.getElem?_mem hk)
    subst hg
    rfl
  order := by
    intro pre post j d heq
    simp [init] at heq

/-- A step that leaves the members and the wait groups alone and records
nothing, or an event that is neither a call nor a return of `Stop` nor the
invocation of a callback, keeps the invariant if the new position fits. -/
theorem Inv.of_phase {a : app} {s s1 : State} (h : Inv a s)
    (hst : s1.stops = s.stops) (hcb : s1.callbacks = s.callbacks)
    (hws : s1.wgStop = s.wgStop) (hwc : s1.wgCallback = s.wgCallback)
    (htr : s1.trace = s.trace ∨ ∃ e, s1.trace = s.trace ++ [e] ∧
      (∀ k, Event.stopCallOf k e = false) ∧ (∀ k, Event.stopReturnOf k e = false) ∧
      (∀ j d, e ≠ Event.callbackInvoked j d))
    (hph : phaseInv s1) : Inv a s1 := by
  rcases htr with htr | ⟨e, htr, he1, he2, he3⟩
  · exact
      { lenS := by rw [hst]; exact h.lenS
        lenC := by rw [hcb]; exact h.lenC
        wgS := by rw [hst, hws]; exact h.wgS
        wgC := by rw [hcb, hwc]; exact h.wgC
        phase := hph
        calls := by rw [hst, htr]; exact h.calls
        callsT := by rw [htr]; exact h.callsT
        rets := by rw [hst, htr]; exact h.rets
        order := by rw [htr]; exact h.order }
  · exact
      { lenS := by rw [hst]; exact h.lenS
        lenC := by rw [hcb]; exact h.lenC
        wgS := by rw [hst, hws]; exact h.wgS
        wgC := by rw [hcb, hwc]; exact h.wgC
        phase := hph
        calls := by
          rw [hst, htr]
          exact count_inv_append _ _ _ _ _ h.calls (fun k => by simp [he1 k])
        callsT := by
          rw [htr]
          intro k d hmem
          rcases List.mem_append.mp hmem with hm | hm
          · exact h.callsT k d hm
          · rw [List.mem_singleton] at hm
            have := he1 k
            rw [← hm] at this
            simp [Event.stopCallOf] at this
        rets := by
          rw [hst, htr]
          exact count_inv_append _ _ _ _ _ h.rets (fun k => by simp [he2 k])
        order := by rw [htr]; exact h.order.append e he3 }

theorem phaseInv_congr {s s1 : State} (h : phaseInv s) (hpc : s1.pc = s.pc)
    (hst : s1.stops = s.stops) (hcb : s1.callbacks = s.callbacks) : phaseInv s1 := by
  unfold phaseInv at h ⊢
  rw [hpc, hst, hcb]
  exact h

theorem phaseInv_stops_set {s s1 : State} (h : phaseInv s) {i : Nat} {u v : Member}
    (hu : s.stops[i]? = some u) (hp : u.pending = true) (hv : v ≠ Member.idle)
    (hpc : s1.pc = s.pc) (hst : s1.stops = s.stops.set i v)
    (hcb : s1.callbacks = s.callbacks) : phaseInv s1 := by
  have hun : u ≠ Member.idle := by
    intro e
    rw [e] at hp
    cases hp
  have hud : u ≠ Member.done := by
    intro e
    rw [e] at hp
    cases hp
  unfold phaseInv at h ⊢
  rw [hpc, hst, hcb]
  cases hs : s.pc with
  | recv =>
    rw [hs] at h
    exact (h.1.absurd_of_ne hu hun).elim
  | stopLoop n =>
    rw [hs] at h
    exact ⟨h.1.set_idleFrom hu hun hv, h.2⟩
  | stopWait =>
    rw [hs] at h
    exact ⟨h.1.set_noneIdle i hv, h.2⟩
  | cbLoop n =>
    rw [hs] at h
    exact (h.1.absurd_of_ne hu hud).elim
  | cbWait =>
    rw [hs] at h
    exact (h.1.absurd_of_ne hu hud).elim
  | returned =>
    rw [hs] at h
    exact (h.1.absurd_of_ne hu hud).elim

/-- A member of the callback fan-out has a goroutine only once every `Stop` is done. -/
theorem phaseInv_stops_done {s : State} (h : phaseInv s) {j : Nat} {u : Member}
    (hu : s.callbacks[j]? = some u) (hun : u ≠ Member.idle) : AllAre s.stops Member.done := by
  unfold phaseInv at h
  cases hs : s.pc with
  | recv =>
    rw [hs] at h
    exact (h.2.absurd_of_ne hu hun).elim
  | stopLoop n =>
    rw [hs] at h
    exact (h.2.absurd_of_ne hu hun).elim
  | stopWait =>
    rw [hs] at h
    exact (h.2.absurd_of_ne hu hun).elim
  | cbLoop n =>
    rw [hs] at h
    exact h.1
  | cbWait =>
    rw [hs] at h
    exact h.1
  | returned =>
    rw [hs] at h
    exact h.1

theorem phaseInv_callbacks_set {s s1 : State} (h : phaseInv s) {j : Nat} {u v : Member}
    (hu : s.callbacks[j]? = some u) (hp : u.pending = true) (hv : v ≠ Member.idle)
    (hpc : s1.pc = s.pc) (hst : s1.stops = s.stops)
    (hcb : s1.callbacks = s.callbacks.set j v) : phaseInv s1 := by
  have hun : u ≠ Member.idle := by
    intro e
    rw [e] at hp
    cases hp
  have hud : u ≠ Member.done := by
    intro e
    rw [e] at hp
    cases hp
  unfold phaseInv at h ⊢
  rw [hpc, hst, hcb]
  cases hs : s.pc with
  | recv =>
    rw [hs] at h
    exact (h.2.absurd_of_ne hu hun).elim
  | stopLoop n =>
    rw [hs] at h
    exact (h.2.absurd_of_ne hu hun).elim
  | stopWait =>
    rw [hs] at h
    exact (h.2.absurd_of_ne hu hun).elim
  | cbLoop n =>
    rw [hs] at h
    exact ⟨h.1, h.2.set_idleFrom hu hun hv⟩
  | cbWait =>
    rw [hs] at h
    exact ⟨h.1, h.2.set_noneIdle j hv⟩
  | returned =>
    rw [hs] at h
    exact (h.2.absurd_of_ne hu hud).elim

theorem StopsBeforeCallbacks.append_list {n : Nat} (es : List Event) {tr : List Event}
    (h : StopsBeforeCallbacks n tr)
    (he : ∀ e ∈ es, ∀ j d, e ≠ Event.callbackInvoked j d) :
    StopsBeforeCallbacks n (tr ++ es) := by
  induction es generalizing tr with
  | nil => simpa using h
  | cons e es ih =>
    have e1 : tr ++ e :: es = (tr ++ [e]) ++ es := by simp
    rw [e1]
    exact ih (h.append e (he e (List.mem_cons_self _ _)))
      (fun x hx => he x (List.mem_cons_of_mem _ hx))

theorem not_mem_of_countP_stopCallOf {es : List Event} (h : ∀ k, es.countP (Event.stopCallOf k) = 0)
    (k : Nat) (d : Duration) : Event.stopCalled k d ∉ es := by
  intro hmem
  have := List.countP_eq_zero.mp (h k) _ hmem
  simp [Event.stopCallOf] at this

/-- A step that moves member `i` of the stop fan-out from `u` to `v` keeps the
invariant, if the wait group, the recorded events and the position follow. -/
theorem Inv.stops_set {a : app} {s s1 : State} (h : Inv a s) {i : Nat} {u v : Member}
    (es : List Event) (hu : s.stops[i]? = some u)
    (hst : s1.stops = s.stops.set i v) (hcb : s1.callbacks = s.callbacks)
    (hwc : s1.wgCallback = s.wgCallback)
    (hws : s1.wgStop + (if u.pending then 1 else 0) = s.wgStop + (if v.pending then 1 else 0))
    (htr : s1.trace = s.trace ++ es)
    (hcall : (if u.called then 1 else 0) + es.countP (Event.stopCallOf i)
      = if v.called then 1 else 0)
    (hcallk : ∀ k, k ≠ i → es.countP (Event.stopCallOf k) = 0)
    (hret : (if u.finished then 1 else 0) + es.countP (Event.stopReturnOf i)
      = if v.finished then 1 else 0)
    (hretk : ∀ k, k ≠ i → es.countP (Event.stopReturnOf k) = 0)
    (hT : ∀ k d, Event.stopCalled k d ∈ es → d = a.opts.waitTime)
    (hord : ∀ e ∈ es, ∀ j d, e ≠ Event.callbackInvoked j d)
    (hph : phaseInv s1) : Inv a s1 where
  lenS := by rw [hst, List.length_set]; exact h.lenS
  lenC := by rw [hcb]; exact h.lenC
  wgS := by
    have c := countP_set_of_getElem? Member.pending s.stops i u v hu
    have w := h.wgS
    rw [hst]
    omega
  wgC := by rw [hcb, hwc]; exact h.wgC
  phase := hph
  calls := by
    rw [hst, htr]
    exact count_inv_set _ _ _ _ _ _ _ _ h.calls hu hcall hcallk
  callsT := by
    rw [htr]
    intro k d hmem
    rcases List.mem_append.mp hmem with hm | hm
    · exact h.callsT k d hm
    · exact hT k d hm
  rets := by
    rw [hst, htr]
    exact count_inv_set _ _ _ _ _ _ _ _ h.rets hu hret hretk
  order := by rw [htr]; exact h.order.append_list es hord

/-- A step that moves member `j` of the callback fan-out from `u` to `v` keeps
the invariant, if the wait group, the recorded events and the position follow. -/
theorem Inv.callbacks_set {a : app} {s s1 : State} (h : Inv a s) {j : Nat} {u v : Member}
    (es : List Event) (hu : s.callbacks[j]? = some u)
    (hst : s1.stops = s.stops) (hcb : s1.callbacks = s.callbacks.set j v)
    (hws : s1.wgStop = s.wgStop)
    (hwc : s1.wgCallback + (if u.pending then 1 else 0)
      = s.wgCallback + (if v.pending then 1 else 0))
    (htr : s1.trace = s.trace ++ es)
    (hcallk : ∀ k, es.countP (Event.stopCallOf k) = 0)
    (hretk : ∀ k, es.countP (Event.stopReturnOf k) = 0)
    (hord : StopsBeforeCallbacks a.servers.length s1.trace)
    (hph : phaseInv s1) : Inv a s1 where
  lenS := by rw [hst]; exact h.lenS
  lenC := by rw [hcb, List.length_set]; exact h.lenC
  wgS := by rw [hst, hws]; exact h.wgS
  wgC := by
    have c := countP_set_of_getElem? Member.pending s.callbacks j u v hu
    have w := h.wgC
    rw [hcb]
    omega
  phase := hph
  calls := by
    rw [hst, htr]
    exact count_inv_append _ _ _ _ _ h.calls hcallk
  callsT := by
    rw [htr]
    intro k d hmem
    rcases List.mem_append.mp hmem with hm | hm
    · exact h.callsT k d hm
    · exact absurd hm (not_mem_of_countP_stopCallOf hcallk k d)
  rets := by
    rw [hst, htr]
    exact count_inv_append _ _ _ _ _ h.rets hretk
  order := hord

theorem Inv.stepMain {a : app} {s s1 : State} (h : Inv a s) (hs : stepMain a s = some s1) :
    Inv a s1 := by
  unfold app.stepMain at hs
  have hph := h.phase
  unfold phaseInv at hph
  cases hpc : s.pc with
  | recv =>
    rw [hpc] at hs hph
    simp only at hs
    split at hs
    · cases hs
    · cases hs
      refine h.of_phase rfl rfl rfl rfl (Or.inr ⟨_, rfl, ?_, ?_, ?_⟩) ?_
      · intro k; rfl
      · intro k; rfl
      · intro j d e; cases e
      · exact ⟨hph.1.idleFrom_zero, hph.2⟩
  | stopLoop i =>
    rw [hpc] at hs hph
    simp only at hs
    split at hs
    · rename_i hi
      cases hs
      have hidle : s.stops[i]? = some Member.idle := hph.1.get_idle (by rw [h.lenS]; exact hi)
      refine h.stops_set [] hidle rfl rfl rfl ?_ (by simp) ?_ ?_ ?_ ?_ ?_ ?_ ?_
      · simp [Member.pending]
      · simp [Member.called]
      · intro k _; rfl
      · simp [Member.finished]
      · intro k _; rfl
      · intro k d hm; cases hm
      · intro e hm; cases hm
      · exact ⟨hph.1.spawn, hph.2⟩
    · rename_i hi
      cases hs
      refine h.of_phase rfl rfl rfl rfl (Or.inl rfl) ?_
      exact ⟨hph.1.noneIdle (by rw [h.lenS]; exact hi), hph.2⟩
  | stopWait =>
    rw [hpc] at hs hph
    simp only at hs
    split at hs
    · rename_i hw
      cases hs
      refine h.of_phase rfl rfl rfl rfl (Or.inl rfl) ?_
      exact ⟨hph.1.allDone (by rw [← h.wgS]; exact hw), hph.2.idleFrom_zero⟩
    · cases hs
  | cbLoop j =>
    rw [hpc] at hs hph
    simp only at hs
    split at hs
    · rename_i hj
      cases hs
      have hidle : s.callbacks[j]? = some Member.idle :=
        hph.2.get_idle (by rw [h.lenC]; exact hj)
      refine h.callbacks_set [] hidle rfl rfl rfl ?_ (by simp) ?_ ?_ ?_ ?_
      · simp [Member.pending]
      · intro k; rfl
      · intro k; rfl
      · exact h.order
      · exact ⟨hph.1, hph.2.spawn⟩
    · rename_i hj
      cases hs
      refine h.of_phase rfl rfl rfl rfl (Or.inl rfl) ?_
      exact ⟨hph.1, hph.2.noneIdle (by rw [h.lenC]; exact hj)⟩
  | cbWait =>
    rw [hpc] at hs hph
    simp only at hs
    split at hs
    · rename_i hw
      cases hs
      refine h.of_phase rfl rfl rfl rfl (Or.inr ⟨_, rfl, ?_, ?_, ?_⟩) ?_
      · intro k; rfl
      · intro k; rfl
      · intro j d e; cases e
      · exact ⟨hph.1, hph.2.allDone (by rw [← h.wgC]; exact hw)⟩
    · cases hs
  | returned =>
    rw [hpc] at hs
    cases hs

theorem Inv.stepStop {a : app} {s s1 : State} {i : Nat} {err : Option error} (h : Inv a s)
    (hs : stepStop a s i err = some s1) : Inv a s1 := by
  unfold app.stepStop at hs
  cases hg : s.stops[i]? with
  | none =>
    rw [hg] at hs
    cases hs
  | some g =>
    rw [hg] at hs
    cases g with
    | idle => cases hs
    | done => cases hs
    | spawned =>
      cases hs
      refine h.stops_set [Event.stopCalled i a.opts.waitTime] hg rfl rfl rfl ?_ rfl ?_ ?_ ?_ ?_ ?_ ?_
        (phaseInv_stops_set h.phase hg rfl (by decide) rfl rfl rfl)
      · simp [Member.pending]
      · simp [Member.called, Event.stopCallOf]
      · intro k hk
        simp [Event.stopCallOf, Ne.symm hk]
      · simp [Member.finished, Event.stopReturnOf]
      · intro k _
        simp [Event.stopReturnOf]
      · intro k d hm
        simp only [List.mem_singleton, Event.stopCalled.injEq] at hm
        exact hm.2
      · intro e hm j d
        simp only [List.mem_singleton] at hm
        rw [hm]
        intro e2
        cases e2
    | running =>
      cases hs
      refine h.stops_set [Event.stopReturned i err] hg rfl rfl rfl ?_ rfl ?_ ?_ ?_ ?_ ?_ ?_
        (phaseInv_stops_set h.phase hg rfl (by decide) rfl rfl rfl)
      · simp [Member.pending]
      · simp [Member.called, Event.stopCallOf]
      · intro k _
        simp [Event.stopCallOf]
      · simp [Member.finished, Event.stopReturnOf]
      · intro k hk
        simp [Event.stopReturnOf, Ne.symm hk]
      · intro k d hm
        simp at hm
      · intro e hm j d
        simp only [List.mem_singleton] at hm
        rw [hm]
        intro e2
        cases e2
    | returned =>
      simp only at hs
      split at hs
      · cases hs
      · rename_i hw
        cases hs
        refine h.stops_set [] hg rfl rfl rfl ?_ (by simp) ?_ ?_ ?_ ?_ ?_ ?_
          (phaseInv_stops_set h.phase hg rfl (by decide) rfl rfl rfl)
        · simp only [Member.pending, if_true, Bool.false_eq_true, if_false]
          omega
        · simp [Member.called]
        · intro k _; rfl
        · simp [Member.finished]
        · intro k _; rfl
        · intro k d hm; cases hm
        · intro e hm; cases hm

theorem Inv.stepCallback {a : app} {s s1 : State} {j : Nat} (h : Inv a s)
    (hs : stepCallback a s j = some s1) : Inv a s1 := by
  unfold app.stepCallback at hs
  cases hg : s.callbacks[j]? with
  | none =>
    rw [hg] at hs
    cases hs
  | some g =>
    rw [hg] at hs
    cases g with
    | idle => cases hs
    | done => cases hs
    | spawned =>
      cases hs
      refine h.callbacks_set [Event.callbackInvoked j a.opts.callbackTimeout] hg rfl rfl rfl ?_ rfl
        ?_ ?_ ?_ (phaseInv_callbacks_set h.phase hg rfl (by decide) rfl rfl rfl)
      · simp [Member.pending]
      · intro k; rfl
      · intro k; rfl
      · refine h.order.append_callback j _ ?_
        intro i hi
        have hdone := phaseInv_stops_done h.phase hg (by decide)
        have hlt : i < s.stops.length := by rw [h.lenS]; exact hi
        have hget : s.stops[i]? = some s.stops[i] := List.getElem?_eq_getElem hlt
        have hd : s.stops[i] = Member.done := hdone i _ hget
        have hc := h.rets i _ hget
        rw [hd] at hc
        exact exists_stopReturned_of_countP hc
    | running =>
      cases hs
      refine h.callbacks_set [Event.callbackReturned j] hg rfl rfl rfl ?_ rfl
        ?_ ?_ ?_ (phaseInv_callbacks_set h.phase hg rfl (by decide) rfl rfl rfl)
      · simp [Member.pending]
      · intro k; rfl
      · intro k; rfl
      · refine h.order.append _ ?_
        intro j d e
        cases e
    | returned =>
      simp only at hs
      split at hs
      · cases hs
      · rename_i hw
        cases hs
        refine h.callbacks_set [] hg rfl rfl rfl ?_ (by simp) ?_ ?_ ?_
          (phaseInv_callbacks_set h.phase hg rfl (by decide) rfl rfl rfl)
        · simp only [Member.pending, if_true, Bool.false_eq_true, if_false]
          omega
        · intro k; rfl
        · intro k; rfl
        · simpa using h.order

theorem Inv.stepRace {a : app} {s s1 : State} {c : SelectCase} (h : Inv a s)
    (hs : stepRace s c = some s1) : Inv a s1 := by
  unfold app.stepRace at hs
  split at hs
  · cases c with
    | signal =>
      simp only at hs
      split at hs
      · cases hs
      · cases hs
        refine h.of_phase rfl rfl rfl rfl (Or.inr ⟨_, rfl, ?_, ?_, ?_⟩)
          (phaseInv_congr h.phase rfl rfl rfl)
        · intro k; rfl
        · intro k; rfl
        · intro j d e; cases e
    | timeout =>
      simp only at hs
      split at hs
      · cases hs
        refine h.of_phase rfl rfl rfl rfl (Or.inr ⟨_, rfl, ?_, ?_, ?_⟩)
          (phaseInv_congr h.phase rfl rfl rfl)
        · intro k; rfl
        · intro k; rfl
        · intro j d e; cases e
      · cases hs
    | done =>
      simp only at hs
      split at hs
      · cases hs
        exact h.of_phase rfl rfl rfl rfl (Or.inl rfl) (phaseInv_congr h.phase rfl rfl rfl)
      · cases hs
  · cases hs

theorem Inv.step {a : app} {s s1 : State} {act : Action} (h : Inv a s)
    (hs : step a s act = some s1) : Inv a s1 := by
  unfold app.step at hs
  split at hs
  · cases hs
  · cases act with
    | signal =>
      simp only at hs
      split at hs
      · cases hs
        exact h.of_phase rfl rfl rfl rfl (Or.inl rfl) (phaseInv_congr h.phase rfl rfl rfl)
      · cases hs
        exact h
    | main => exact h.stepMain hs
    | stop i err => exact h.stepStop hs
    | callback j => exact h.stepCallback hs
    | raceEnter =>
      simp only at hs
      split at hs
      · cases hs
        exact h.of_phase rfl rfl rfl rfl (Or.inl rfl) (phaseInv_congr h.phase rfl rfl rfl)
      · cases hs
    | timer =>
      simp only at hs
      split at hs
      · cases hs
        exact h.of_phase rfl rfl rfl rfl (Or.inl rfl) (phaseInv_congr h.phase rfl rfl rfl)
      · cases hs
    | raceTake c => exact h.stepRace hs

theorem Reachable.inv {a : app} {s : State} (h : Reachable a s) : Inv a s := by
  induction h with
  | init => exact Inv.initial a
  | step act _ hs ih => exact ih.step hs

/-! ## Runs that go through: no result of `Stop` blocks the shutdown -/

theorem remaining_set (l : List Member) (i : Nat) (u v : Member) (h : l[i]? = some u) :
    remaining (l.set i v) + u.rank = remaining l + v.rank := by
  unfold remaining
  induction l generalizing i with
  | nil => simp at h
  | cons x xs ih =>
    cases i with
    | zero =>
      simp only [List.getElem?_cons_zero, Option.some.injEq] at h
      subst h
      simp only [List.set_cons_zero, List.map_cons, List.sum_cons]
      omega
    | succ n =>
      simp only [List.getElem?_cons_succ] at h
      have := ih n h
      simp only [List.set_cons_succ, List.map_cons, List.sum_cons]
      omega

theorem exists_pending_of_remaining_pos (l : List Member) (h : 0 < remaining l) :
    ∃ (i : Nat) (u : Member), l[i]? = some u ∧ u.pending = true := by
  unfold remaining at h
  induction l with
  | nil => simp at h
  | cons x xs ih =>
    simp only [List.map_cons, List.sum_cons] at h
    by_cases hx : x.pending = true
    · exact ⟨0, x, by simp, hx⟩
    · have hr : x.rank = 0 := by
        cases x <;> simp_all [Member.pending, Member.rank]
      obtain ⟨i, u, hu, hp⟩ := ih (by omega)
      exact ⟨i + 1, u, by simpa using hu, hp⟩

theorem countP_pending_of_remaining_zero (l : List Member) (h : remaining l = 0) :
    l.countP Member.pending = 0 := by
  unfold remaining at h
  induction l with
  | nil => rfl
  | cons x xs ih =>
    simp only [List.map_cons, List.sum_cons] at h
    have hx : x.pending = false := by
      cases x <;> simp_all [Member.pending, Member.rank]
    rw [List.countP_cons, ih (by omega), hx]
    rfl

theorem rank_pos_of_pending {u : Member} (h : u.pending = true) : 0 < u.rank := by
  cases u <;> simp_all [Member.pending, Member.rank]

theorem OnTrack.at_init (a : app) (errs : Nat → Option error) : OnTrack a errs (init a) where
  reach := Reachable.init
  alive := rfl
  errsOk := by
    intro i e h
    simp [init] at h
  cbOk := by
    intro j g hg hc
    have : g = Member.idle := List.eq_of_mem_replicate (List.getElem?_mem hg)
    rw [this] at hc
    cases hc

/-- What a step of the goroutine of `shutdown` changes. -/
theorem stepMain_shape {a : app} {s s1 : State} (h : stepMain a s = some s1) :
    s1.exited = s.exited ∧
    (∀ e, e ∈ s1.trace → e ∈ s.trace ∨ e = Event.signalReceived ∨ e = Event.cancelled) ∧
    (∀ e, e ∈ s.trace → e ∈ s1.trace) ∧
    (∀ (j : Nat) (g : Member), s1.callbacks[j]? = some g → g.called = true →
      s.callbacks[j]? = some g) := by
  unfold stepMain at h
  cases hpc : s.pc with
  | recv =>
    rw [hpc] at h
    simp only at h
    split at h
    · cases h
    · cases h
      refine ⟨rfl, ?_, ?_, fun j g hg _ => hg⟩
      · intro e he
        rcases List.mem_append.mp he with h1 | h1
        · exact Or.inl h1
        · exact Or.inr (Or.inl (List.mem_singleton.mp h1))
      · intro e he
        exact List.mem_append_left _ he
  | stopLoop i =>
    rw [hpc] at h
    simp only at h
    split at h <;> cases h <;> exact ⟨rfl, fun e he => Or.inl he, fun e he => he, fun j g hg _ => hg⟩
  | stopWait =>
    rw [hpc] at h
    simp only at h
    split at h
    · cases h
      exact ⟨rfl, fun e he => Or.inl he, fun e he => he, fun j g hg _ => hg⟩
    · cases h
  | cbLoop j =>
    rw [hpc] at h
    simp only at h
    split at h
    · cases h
      refine ⟨rfl, fun e he => Or.inl he, fun e he => he, ?_⟩
      intro k g hg hc
      rcases getElem?_set_some hg with ⟨_, rfl⟩ | ⟨_, hg2⟩
      · cases hc
      · exact hg2
    · cases h
      exact ⟨rfl, fun e he => Or.inl he, fun e he => he, fun j g hg _ => hg⟩
  | cbWait =>
    rw [hpc] at h
    simp only at h
    split at h
    · cases h
      refine ⟨rfl, ?_, ?_, fun j g hg _ => hg⟩
      · intro e he
        rcases List.mem_append.mp he with h1 | h1
        · exact Or.inl h1
        · exact Or.inr (Or.inr (List.mem_singleton.mp h1))
      · intro e he
        exact List.mem_append_left _ he
    · cases h
  | returned =>
    rw [hpc] at h
    cases h

theorem OnTrack.main {a : app} {errs : Nat → Option error} {s s1 : State}
    (h : OnTrack a errs s) (hs : step a s Action.main = some s1) : OnTrack a errs s1 := by
  have hs2 : stepMain a s = some s1 := by
    have hex2 : s.exited.isSome = false := by rw [h.alive]; rfl
    simpa only [step, hex2, Bool.false_eq_true, if_false] using hs
  obtain ⟨h1, h2, h3, h4⟩ := stepMain_shape hs2
  exact
    { reach := Reachable.step _ h.reach hs
      alive := by rw [h1]; exact h.alive
      errsOk := by
        intro i e he
        rcases h2 _ he with h5 | h5 | h5
        · exact h.errsOk i e h5
        · cases h5
        · cases h5
      cbOk := by
        intro j g hg hc
        exact h3 _ (h.cbOk j g (h4 j g hg hc) hc) }

/-- An unfinished goroutine of the stop fan-out takes its next step, `Stop`
returning `errs i` if the step is the return. -/
theorem OnTrack.stop {a : app} {errs : Nat → Option error} {s : State}
    (h : OnTrack a errs s) {i : Nat} {u : Member} (hu : s.stops[i]? = some u)
    (hp : u.pending = true) :
    ∃ s1, OnTrack a errs s1 ∧ s1.pc = s.pc ∧ remaining s1.stops + 1 = remaining s.stops := by
  have inv := h.reach.inv
  have hex2 : s.exited.isSome = false := by rw [h.alive]; rfl
  have hw : ¬ s.wgStop = 0 := by
    have hpos : 0 < s.stops.countP Member.pending :=
      List.countP_pos_iff.mpr ⟨u, List.getElem?_mem hu, hp⟩
    rw [inv.wgS]
    omega
  cases u with
  | idle => cases hp
  | done => cases hp
  | spawned =>
    have hs : step a s (Action.stop i (errs i)) = some
        { s with stops := s.stops.set i .running,
                 trace := s.trace ++ [.stopCalled i a.opts.waitTime] } := by
      simp only [step, hex2, Bool.false_eq_true, if_false, stepStop, hu]
    refine ⟨_, ⟨Reachable.step _ h.reach hs, h.alive, ?_, ?_⟩, rfl, ?_⟩
    · intro k e he
      rcases List.mem_append.mp he with h1 | h1
      · exact h.errsOk k e h1
      · simp at h1
    · intro j g hg hc
      exact List.mem_append_left _ (h.cbOk j g hg hc)
    · have := remaining_set s.stops i .spawned .running hu
      simp only [Member.rank] at this
      show remaining (s.stops.set i .running) + 1 = remaining s.stops
      omega
  | running =>
    have hs : step a s (Action.stop i (errs i)) = some
        { s with stops := s.stops.set i .returned,
                 trace := s.trace ++ [.stopReturned i (errs i)] } := by
      simp only [step, hex2, Bool.false_eq_true, if_false, stepStop, hu]
    refine ⟨_, ⟨Reachable.step _ h.reach hs, h.alive, ?_, ?_⟩, rfl, ?_⟩
    · intro k e he
      rcases List.mem_append.mp he with h1 | h1
      · exact h.errsOk k e h1
      · simp only [List.mem_singleton, Event.stopReturned.injEq] at h1
        rw [h1.1, h1.2]
    · intro j g hg hc
      exact List.mem_append_left _ (h.cbOk j g hg hc)
    · have := remaining_set s.stops i .running .returned hu
      simp only [Member.rank] at this
      show remaining (s.stops.set i .returned) + 1 = remaining s.stops
      omega
  | returned =>
    have hs : step a s (Action.stop i (errs i)) = some
        { s with stops := s.stops.set i .done, wgStop := s.wgStop - 1 } := by
      simp only [step, hex2, Bool.false_eq_true, if_false, stepStop, hu, hw]
    refine ⟨_, ⟨Reachable.step _ h.reach hs, h.alive, h.errsOk, h.cbOk⟩, rfl, ?_⟩
    have := remaining_set s.stops i .returned .done hu
    simp only [Member.rank] at this
    show remaining (s.stops.set i .done) + 1 = remaining s.stops
    omega

/-- An unfinished goroutine of the callback fan-out takes its next step. -/
theorem OnTrack.callback {a : app} {errs : Nat → Option error} {s : State}
    (h : OnTrack a errs s) {j : Nat} {u : Member} (hu : s.callbacks[j]? = some u)
    (hp : u.pending = true) :
    ∃ s1, OnTrack a errs s1 ∧ s1.pc = s.pc ∧
      remaining s1.callbacks + 1 = remaining s.callbacks := by
  have inv := h.reach.inv
  have hex2 : s.exited.isSome = false := by rw [h.alive]; rfl
  have hw : ¬ s.wgCallback = 0 := by
    have hpos : 0 < s.callbacks.countP Member.pending :=
      List.countP_pos_iff.mpr ⟨u, List.getElem?_mem hu, hp⟩
    rw [inv.wgC]
    omega
  cases u with
  | idle => cases hp
  | done => cases hp
  | spawned =>
    have hs : step a s (Action.callback j) = some
        { s with callbacks := s.callbacks.set j .running,
                 trace := s.trace ++ [.callbackInvoked j a.opts.callbackTimeout] } := by
      simp only [step, hex2, Bool.false_eq_true, if_false, stepCallback, hu]
    refine ⟨_, ⟨Reachable.step _ h.reach hs, h.alive, ?_, ?_⟩, rfl, ?_⟩
    · intro k e he
      rcases List.mem_append.mp he with h1 | h1
      · exact h.errsOk k e h1
      · simp at h1
    · intro k g hg hc
      rcases getElem?_set_some hg with ⟨rfl, _⟩ | ⟨_, hg2⟩
      · exact List.mem_append_right _ (List.mem_singleton.mpr rfl)
      · exact List.mem_append_left _ (h.cbOk k g hg2 hc)
    · have := remaining_set s.callbacks j .spawned .running hu
      simp only [Member.rank] at this
      show remaining (s.callbacks.set j .running) + 1 = remaining s.callbacks
      omega
  | running =>
    have hs : step a s (Action.callback j) = some
        { s with callbacks := s.callbacks.set j .returned,
                 trace := s.trace ++ [.callbackReturned j] } := by
      simp only [step, hex2, Bool.false_eq_true, if_false, stepCallback, hu]
    refine ⟨_, ⟨Reachable.step _ h.reach hs, h.alive, ?_, ?_⟩, rfl, ?_⟩
    · intro k e he
      rcases List.mem_append.mp he with h1 | h1
      · exact h.errsOk k e h1
      · simp at h1
    · intro k g hg hc
      rcases getElem?_set_some hg with ⟨rfl, _⟩ | ⟨_, hg2⟩
      · exact List.mem_append_left _ (h.cbOk k .running hu rfl)
      · exact List.mem_append_left _ (h.cbOk k g hg2 hc)
    · have := remaining_set s.callbacks j .running .returned hu
      simp only [Member.rank] at this
      show remaining (s.callbacks.set j .returned) + 1 = remaining s.callbacks
      omega
  | returned =>
    have hs : step a s (Action.callback j) = some
        { s with callbacks := s.callbacks.set j .done, wgCallback := s.wgCallback - 1 } := by
      simp only [step, hex2, Bool.false_eq_true, if_false, stepCallback, hu, hw]
    refine ⟨_, ⟨Reachable.step _ h.reach hs, h.alive, h.errsOk, ?_⟩, rfl, ?_⟩
    · intro k g hg hc
      rcases getElem?_set_some hg with ⟨rfl, _⟩ | ⟨_, hg2⟩
      · exact h.cbOk k .returned hu rfl
      · exact h.cbOk k g hg2 hc
    · have := remaining_set s.callbacks j .returned .done hu
      simp only [Member.rank] at this
      show remaining (s.callbacks.set j .done) + 1 = remaining s.callbacks
      omega

theorem exists_onTrack_stopLoop (a : app) (errs : Nat → Option error) :
    ∃ s, OnTrack a errs s ∧ s.pc = PC.stopLoop 0 := by
  have h0 := OnTrack.at_init a errs
  have hs1 : step a (init a) Action.signal = some { init a with sigs := 1 } := rfl
  have h1 : OnTrack a errs { init a with sigs := 1 } :=
    { reach := Reachable.step _ h0.reach hs1
      alive := rfl
      errsOk := h0.errsOk
      cbOk := h0.cbOk }
  have hs2 : step a { init a with sigs := 1 } Action.main = some
      { init a with sigs := 0, race := .spawned, pc := .stopLoop 0,
                    trace := [Event.signalReceived] } := rfl
  exact ⟨_, h1.main hs2, rfl⟩

theorem exists_onTrack_stopWait (a : app) (errs : Nat → Option error) (n : Nat) :
    ∀ (i : Nat) (s : State), OnTrack a errs s → s.pc = PC.stopLoop i →
      a.servers.length - i = n → ∃ s1, OnTrack a errs s1 ∧ s1.pc = PC.stopWait := by
  induction n with
  | zero =>
    intro i s h hpc hn
    have hex2 : s.exited.isSome = false := by rw [h.alive]; rfl
    have hi : ¬ i < a.servers.length := by omega
    have hs : step a s Action.main = some { s with pc := .stopWait } := by
      simp only [step, hex2, Bool.false_eq_true, if_false, stepMain, hpc, hi]
    exact ⟨_, h.main hs, rfl⟩
  | succ n ih =>
    intro i s h hpc hn
    have hex2 : s.exited.isSome = false := by rw [h.alive]; rfl
    have hi : i < a.servers.length := by omega
    have hs : step a s Action.main = some
        { s with wgStop := s.wgStop + 1, stops := s.stops.set i .spawned,
                 pc := .stopLoop (i + 1) } := by
      simp only [step, hex2, Bool.false_eq_true, if_false, stepMain, hpc, hi, if_true]
    exact ih (i + 1) _ (h.main hs) rfl (by omega)

theorem exists_onTrack_stops_finished (a : app) (errs : Nat → Option error) (n : Nat) :
    ∀ s : State, OnTrack a errs s → s.pc = PC.stopWait → remaining s.stops = n →
      ∃ s1, OnTrack a errs s1 ∧ s1.pc = PC.stopWait ∧ remaining s1.stops = 0 := by
  induction n with
  | zero =>
    intro s h hpc hn
    exact ⟨s, h, hpc, hn⟩
  | succ n ih =>
    intro s h hpc hn
    obtain ⟨i, u, hu, hp⟩ := exists_pending_of_remaining_pos s.stops (by omega)
    obtain ⟨s1, h1, hpc1, hr1⟩ := h.stop hu hp
    exact ih s1 h1 (by rw [hpc1, hpc]) (by omega)

theorem exists_onTrack_cbLoop (a : app) (errs : Nat → Option error) :
    ∃ s, OnTrack a errs s ∧ s.pc = PC.cbLoop 0 := by
  obtain ⟨s0, h0, hpc0⟩ := exists_onTrack_stopLoop a errs
  obtain ⟨s1, h1, hpc1⟩ := exists_onTrack_stopWait a errs _ 0 s0 h0 hpc0 rfl
  obtain ⟨s2, h2, hpc2, hr2⟩ := exists_onTrack_stops_finished a errs _ s1 h1 hpc1 rfl
  have hex2 : s2.exited.isSome = false := by rw [h2.alive]; rfl
  have hw : s2.wgStop = 0 := by
    rw [h2.reach.inv.wgS]
    exact countP_pending_of_remaining_zero _ hr2
  have hs : step a s2 Action.main = some { s2 with pc := .cbLoop 0 } := by
    simp only [step, hex2, Bool.false_eq_true, if_false, stepMain, hpc2, hw, if_true]
  exact ⟨_, h2.main hs, rfl⟩

theorem exists_onTrack_cbWait (a : app) (errs : Nat → Option error) (n : Nat) :
    ∀ (j : Nat) (s : State), OnTrack a errs s → s.pc = PC.cbLoop j →
      a.callbacks.length - j = n → ∃ s1, OnTrack a errs s1 ∧ s1.pc = PC.cbWait := by
  induction n with
  | zero =>
    intro j s h hpc hn
    have hex2 : s.exited.isSome = false := by rw [h.alive]; rfl
    have hj : ¬ j < a.callbacks.length := by omega
    have hs : step a s Action.main = some { s with pc := .cbWait } := by
      simp only [step, hex2, Bool.false_eq_true, if_false, stepMain, hpc, hj]
    exact ⟨_, h.main hs, rfl⟩
  | succ n ih =>
    intro j s h hpc hn
    have hex2 : s.exited.isSome = false := by rw [h.alive]; rfl
    have hj : j < a.callbacks.length := by omega
    have hs : step a s Action.main = some
        { s with wgCallback := s.wgCallback + 1, callbacks := s.callbacks.set j .spawned,
                 pc := .cbLoop (j + 1) } := by
      simp only [step, hex2, Bool.false_eq_true, if_false, stepMain, hpc, hj, if_true]
    exact ih (j + 1) _ (h.main hs) rfl (by omega)

theorem exists_onTrack_callbacks_finished (a : app) (errs : Nat → Option error) (n : Nat) :
    ∀ s : State, OnTrack a errs s → s.pc = PC.cbWait → remaining s.callbacks = n →
      ∃ s1, OnTrack a errs s1 ∧ s1.pc = PC.cbWait ∧ remaining s1.callbacks = 0 := by
  induction n with
  | zero =>
    intro s h hpc hn
    exact ⟨s, h, hpc, hn⟩
  | succ n ih =>
    intro s h hpc hn
    obtain ⟨j, u, hu, hp⟩ := exists_pending_of_remaining_pos s.callbacks (by omega)
    obtain ⟨s1, h1, hpc1, hr1⟩ := h.callback hu hp
    exact ih s1 h1 (by rw [hpc1, hpc]) (by omega)

/-- For any app and any results `errs` of the calls of `Stop`, there is a run
of `shutdown` in which every `Stop` returns its result, every callback is
invoked, and `shutdown` returns without the process having exited. -/
theorem exists_complete_run (a : app) (errs : Nat → Option error) :
    ∃ s, Reachable a s ∧ s.pc = PC.returned ∧ s.exited = none ∧
      (∀ i, i < a.servers.length → Event.stopReturned i (errs i) ∈ s.trace) ∧
      (∀ j, j < a.callbacks.length →
        Event.callbackInvoked j a.opts.callbackTimeout ∈ s.trace) := by
  obtain ⟨s0, h0, hpc0⟩ := exists_onTrack_cbLoop a errs
  obtain ⟨s1, h1, hpc1⟩ := exists_onTrack_cbWait a errs _ 0 s0 h0 hpc0 rfl
  obtain ⟨s2, h2, hpc2, hr2⟩ := exists_onTrack_callbacks_finished a errs _ s1 h1 hpc1 rfl
  have hex2 : s2.exited.isSome = false := by rw [h2.alive]; rfl
  have hw : s2.wgCallback = 0 := by
    rw [h2.reach.inv.wgC]
    exact countP_pending_of_remaining_zero _ hr2
  have hs : step a s2 Action.main = some
      { s2 with pc := .returned, ctxDone := true, trace := s2.trace ++ [.cancelled] } := by
    simp only [step, hex2, Bool.false_eq_true, if_false, stepMain, hpc2, hw, if_true]
  have h3 := h2.main hs
  have inv := h3.reach.inv
  have hph := inv.phase
  unfold phaseInv at hph
  simp only at hph
  refine ⟨_, h3.reach, rfl, h3.alive, ?_, ?_⟩
  · intro i hi
    have hlt : i < s2.stops.length := by
      have := inv.lenS
      simp only at this
      omega
    have hget : s2.stops[i]? = some s2.stops[i] := List.getElem?_eq_getElem hlt
    have hd : s2.stops[i] = Member.done := hph.1 i _ hget
    have hc := inv.rets i _ hget
    rw [hd] at hc
    obtain ⟨e, he⟩ := exists_stopReturned_of_countP hc
    have := h3.errsOk i e he
    rw [this] at he
    exact he
  · intro j hj
    have hlt : j < s2.callbacks.length := by
      have := inv.lenC
      simp only at this
      omega
    have hget : s2.callbacks[j]? = some s2.callbacks[j] := List.getElem?_eq_getElem hlt
    have hd : s2.callbacks[j] = Member.done := hph.2 j _ hget
    have := h3.cbOk j _ hget
    rw [hd] at this
    exact this rfl

theorem reachable_of_run {a : app} (acts : List Action) {s s1 : State} (h : Reachable a s)
    (hr : run a s acts = some s1) : Reachable a s1 := by
  induction acts generalizing s with
  | nil =>
    simp only [run, Option.some.injEq] at hr
    rw [← hr]
    exact h
  | cons act acts ih =>
    simp only [run] at hr
    cases hs : step a s act with
    | none =>
      rw [hs] at hr
      cases hr
    | some s2 =>
      rw [hs] at hr
      exact ih (Reachable.step act h hs) hr

theorem exists_stopCalled_of_countP {tr : List Event} {i : Nat}
    (h : tr.countP (Event.stopCallOf i) = 1) : ∃ d, Event.stopCalled i d ∈ tr := by
  have hpos : 0 < tr.countP (Event.stopCallOf i) := by omega
  obtain ⟨ev, hev, hp⟩ := List.countP_pos_iff.mp hpos
  cases ev <;> simp [Event.stopCallOf] at hp
  case stopCalled k d =>
    subst hp
    exact ⟨d, hev⟩

theorem AllAre.countP_pending {l : List Member} (h : AllAre l Member.done) :
    l.countP Member.pending = 0 := by
  rw [List.countP_eq_zero]
  intro g hg
  obtain ⟨n, hn⟩ := List.mem_iff_getElem?.mp hg
  rw [h n g hn]
  decide

theorem joinAll_ge_each (t : Time) (ls : List (Option Nat)) (u : Time)
    (h : joinAll t ls = some u) : ∀ l ∈ ls, ∃ d : Nat, l = some d ∧ t + d ≤ u := by
  induction ls generalizing u with
  | nil =>
    intro l hl
    cases hl
  | cons x xs ih =>
    cases x with
    | none => simp [joinAll] at h
    | some d =>
      cases hj : joinAll t xs with
      | none => simp [joinAll, hj] at h
      | some v =>
        simp only [joinAll, hj, Option.map_some', Option.some.injEq] at h
        intro l hl
        rcases List.mem_cons.mp hl with rfl | hl
        · exact ⟨d, rfl, by rw [← h]; exact le_max_left _ _⟩
        · obtain ⟨d2, hd2, hle⟩ := ih v hj l hl
          exact ⟨d2, hd2, by rw [← h]; exact le_trans hle (le_max_right _ _)⟩

/-- C5: in every run of `shutdown`, under any scheduling of the goroutines and
whatever the calls return, when a callback is invoked the call of `Stop` has
already returned for every server: in the trace of any reachable state, each
invocation of a callback is preceded by a return of `Stop` of each server. -/
theorem callbacks_invoked_after_all_stops_returned (a : app) (s : State) (h : Reachable a s)
    (pre post : List Event) (j : Nat) (d : Duration)
    (htr : s.trace = pre ++ Event.callbackInvoked j d :: post)
    (i : Nat) (hi : i < a.servers.length) :
    ∃ e, Event.stopReturned i e ∈ pre :=
  h.inv.order pre post j d htr i hi

/-- C6: in every run of `shutdown`, whatever the calls of `Stop` return:
`Stop` is called at most once on each server, always with a context whose
timeout is `waitTime`; once `stopAllServers` has returned, `Stop` has been
called exactly once on every server and has returned exactly once for every
server.  No error blocks anything: a goroutine of the stop fan-out that has
not finished can always take its next step, whatever its `Stop` returns; once
all of them have finished, `stopAllServers` returns and the loop of the
callback fan-out starts; and that loop starts a goroutine for each callback.
In the timed semantics, `stopAllServers` returns at an instant only if every
`Stop` has returned by that instant.  And whatever results `errs` the calls of
`Stop` are given, there is a run in which every `Stop` returns its result,
every callback is then invoked, and `shutdown` returns. -/
theorem stopAllServers_stops_every_server_once (a : app) (s : State) (h : Reachable a s) :
    (∀ i, i < a.servers.length → s.trace.countP (Event.stopCallOf i) ≤ 1) ∧
    (∀ i d, Event.stopCalled i d ∈ s.trace → d = a.opts.waitTime) ∧
    (s.pc.afterStops = true → ∀ i, i < a.servers.length →
      s.trace.countP (Event.stopCallOf i) = 1 ∧
      Event.stopCalled i a.opts.waitTime ∈ s.trace ∧
      s.trace.countP (Event.stopReturnOf i) = 1) ∧
    (s.exited = none → ∀ i g, s.stops[i]? = some g → g.pending = true →
      ∀ err, ∃ s1, step a s (Action.stop i err) = some s1) ∧
    (s.exited = none → s.pc = PC.stopWait → AllAre s.stops Member.done →
      ∃ s1, step a s Action.main = some s1 ∧ s1.pc = PC.cbLoop 0) ∧
    (s.exited = none → ∀ j, s.pc = PC.cbLoop j → j < a.callbacks.length →
      ∃ s1, step a s Action.main = some s1 ∧ s1.callbacks[j]? = some Member.spawned) ∧
    (∀ t t1 : Time, stopAllServers a t = some t1 → ∀ sv ∈ a.servers, ∃ d : Nat,
      (sv.Stop a.opts.waitTime).latency = some d ∧ t + d ≤ t1) ∧
    (∀ errs : Nat → Option error, ∃ s1, Reachable a s1 ∧ s1.pc = PC.returned ∧
      s1.exited = none ∧
      (∀ i, i < a.servers.length → Event.stopReturned i (errs i) ∈ s1.trace) ∧
      (∀ j, j < a.callbacks.length →
        Event.callbackInvoked j a.opts.callbackTimeout ∈ s1.trace)) := by
  have inv := h.inv
  refine ⟨?_, inv.callsT, ?_, ?_, ?_, ?_, ?_, exists_complete_run a⟩
  rotate_right
  · intro t t1 ht sv hsv
    exact joinAll_ge_each t _ t1 ht _ (List.mem_map.mpr ⟨sv, hsv, rfl⟩)
  · intro i hi
    have hlt : i < s.stops.length := by rw [inv.lenS]; exact hi
    have hc := inv.calls i _ (List.getElem?_eq_getElem hlt)
    rw [hc]
    split <;> omega
  · intro hpc i hi
    have hdone : AllAre s.stops Member.done := by
      have hph := inv.phase
      unfold phaseInv at hph
      cases hs : s.pc with
      | recv => rw [hs] at hpc; cases hpc
      | stopLoop n => rw [hs] at hpc; cases hpc
      | stopWait => rw [hs] at hpc; cases hpc
      | cbLoop n => rw [hs] at hph; exact hph.1
      | cbWait => rw [hs] at hph; exact hph.1
      | returned => rw [hs] at hph; exact hph.1
    have hlt : i < s.stops.length := by rw [inv.lenS]; exact hi
    have hget : s.stops[i]? = some s.stops[i] := List.getElem?_eq_getElem hlt
    have hd : s.stops[i] = Member.done := hdone i _ hget
    have hc := inv.calls i _ hget
    have hr := inv.rets i _ hget
    rw [hd] at hc hr
    have hc1 : s.trace.countP (Event.stopCallOf i) = 1 := hc
    obtain ⟨d, hmem⟩ := exists_stopCalled_of_countP hc1
    have hdw := inv.callsT i d hmem
    rw [hdw] at hmem
    exact ⟨hc1, hmem, hr⟩
  · intro hex i g hg hp err
    have hex2 : s.exited.isSome = false := by rw [hex]; rfl
    simp only [step, hex2, Bool.false_eq_true, if_false, stepStop, hg]
    cases g with
    | idle => cases hp
    | done => cases hp
    | spawned => exact ⟨_, rfl⟩
    | running => exact ⟨_, rfl⟩
    | returned =>
      have hpos : 0 < s.stops.countP Member.pending :=
        List.countP_pos_iff.mpr ⟨Member.returned, List.getElem?_mem hg, rfl⟩
      have hw : ¬ s.wgStop = 0 := by
        rw [inv.wgS]
        omega
      simp only [hw, if_false]
      exact ⟨_, rfl⟩
  · intro hex hpc hdone
    have hex2 : s.exited.isSome = false := by rw [hex]; rfl
    have hw : s.wgStop = 0 := by rw [inv.wgS]; exact hdone.countP_pending
    simp only [step, hex2, Bool.false_eq_true, if_false, stepMain, hpc, hw, if_true]
    exact ⟨_, rfl, rfl⟩
  · intro hex j hpc hj
    have hex2 : s.exited.isSome = false := by rw [hex]; rfl
    simp only [step, hex2, Bool.false_eq_true, if_false, stepMain, hpc, hj, if_true]
    refine ⟨_, rfl, ?_⟩
    have hlt : j < s.callbacks.length := by rw [inv.lenC]; exact hj
    simp [List.getElem?_set, hlt]

/-! ## The theorems at the scenarios of the test suite -/

/-- C8 at the options of `TestApp_Exit_Gracefully`. -/
theorem New_config_last_option_wins_witness :
    2 ≤ gracefulTestApp.servers.length ∧
    ((∃ a, New gracefulTestApp.servers (gracefulTestCalls.map OptionCall.toOption) = (some a, none) ∧
      a.opts = specOptions gracefulTestCalls ∧ a.callbacks = specCallbacks gracefulTestCalls) ∧
    (∃ a, New gracefulTestApp.servers [] = (some a, none) ∧
      a.opts = ⟨30 * Second, 10 * Second, 3 * Second⟩ ∧ a.callbacks = [])) :=
  ⟨by decide, New_config_last_option_wins gracefulTestApp.servers gracefulTestCalls (by decide)⟩

/-- C2 at `TestApp_Exit_By_Interrupt`: a second signal 100ms after the first. -/
theorem second_signal_forces_exit_witness :
    (0 : Time) ≤ 100 * Millisecond ∧
    100 * Millisecond < timeAfter 0 interruptTestApp.opts.shutdownTimeout ∧
    (∀ t2, completion interruptTestApp 0 = some t2 → 100 * Millisecond < t2) ∧
    shutdown interruptTestApp [0, 100 * Millisecond] = some [Ending.exit InterruptExitCode] :=
  have hc : ∀ t2, completion interruptTestApp 0 = some t2 → 100 * Millisecond < t2 := by
    intro t2 h
    have e : completion interruptTestApp 0 = some (10 * Second) := by decide
    rw [e] at h
    rw [← Option.some.inj h]
    decide
  ⟨by decide, by decide, hc,
    (second_signal_forces_exit interruptTestApp 0 (100 * Millisecond) [] (by decide) (by decide)
      hc).2.1⟩

/-- C3 at `TestApp_Exit_By_Timeout`: servers that need 10s against 300ms. -/
theorem timeout_exit_when_fanouts_late_witness :
    (∀ t2, completion timeoutTestApp 0 = some t2 →
      timeAfter 0 timeoutTestApp.opts.shutdownTimeout < t2) ∧
    shutdown timeoutTestApp [0] = some [Ending.exit TimeoutExitCode] :=
  have hc : ∀ t2, completion timeoutTestApp 0 = some t2 →
      timeAfter 0 timeoutTestApp.opts.shutdownTimeout < t2 := by
    intro t2 h
    have e : completion timeoutTestApp 0 = some (10 * Second) := by decide
    rw [e] at h
    rw [← Option.some.inj h]
    decide
  ⟨hc, (timeout_exit_when_fanouts_late timeoutTestApp 0 hc).1⟩

/-- C4 at `TestApp_Exit_Gracefully`: both fan-outs are finished after 100ms of 300ms. -/
theorem graceful_return_within_timeout_witness :
    completion gracefulTestApp 0 = some (100 * Millisecond) ∧
    100 * Millisecond - 0 < gracefulTestApp.opts.shutdownTimeout ∧
    forceShutdown gracefulTestApp 0 none (some (100 * Millisecond)) = [Ending.returned] ∧
    shutdown gracefulTestApp [0] = some [Ending.returned] ∧
    Ending.exit InterruptExitCode ∉ (shutdown gracefulTestApp [0]).getD [] ∧
    Ending.exit TimeoutExitCode ∉ (shutdown gracefulTestApp [0]).getD [] :=
  have h := graceful_return_within_timeout gracefulTestApp 0 (100 * Millisecond)
    (by decide) (by decide)
  ⟨by decide, by decide, h.1, h.2.1, h.2.2.1, h.2.2.2.1⟩

/-- C10 (as amended) at `TestApp_Exit_Gracefully`. -/
theorem fanouts_within_deadlines_never_time_out_witness :
    New gracefulTestApp.servers (gracefulTestCalls.map OptionCall.toOption)
      = (some gracefulTestApp, none) ∧
    (gracefulTestApp.callbacks ≠ [] ∨ 0 ≤ gracefulTestApp.opts.callbackTimeout) ∧
    gracefulTestApp.opts.waitTime + gracefulTestApp.opts.callbackTimeout
      < gracefulTestApp.opts.shutdownTimeout ∧
    shutdown gracefulTestApp [0] = some [Ending.returned] ∧
    Ending.exit TimeoutExitCode ∉ (shutdown gracefulTestApp [0]).getD [] :=
  have hstop : ∀ s ∈ gracefulTestApp.servers, ∃ d : Nat,
      (s.Stop gracefulTestApp.opts.waitTime).latency = some d ∧
      (d : Int) ≤ gracefulTestApp.opts.waitTime := by
    intro s hs
    simp only [gracefulTestApp, List.mem_cons, List.mem_singleton, List.not_mem_nil,
      or_false] at hs
    rcases hs with rfl | rfl <;> exact ⟨100000000, by decide, by decide⟩
  have hcb : ∀ c ∈ gracefulTestApp.callbacks, ∃ d : Nat,
      c gracefulTestApp.opts.callbackTimeout = some d ∧
      (d : Int) ≤ gracefulTestApp.opts.callbackTimeout := by
    intro c hc
    simp only [gracefulTestApp, List.mem_cons, List.mem_singleton, List.not_mem_nil,
      or_false] at hc
    rcases hc with rfl | rfl <;> exact ⟨0, rfl, by decide⟩
  ⟨rfl, Or.inr (by decide), by decide,
    (fanouts_within_deadlines_never_time_out gracefulTestApp.servers gracefulTestCalls
      gracefulTestApp 0 rfl hstop hcb (Or.inr (by decide))).2.1 (by decide)⟩

/-- C5 at a complete run of `slowStopApp`: the first callback is invoked after
`Stop` of server 0 has returned (with the deadline error). -/
theorem callbacks_invoked_after_all_stops_returned_witness :
    Reachable slowStopApp slowStopFinal ∧
    (0 < slowStopApp.servers.length) ∧
    ∃ e, Event.stopReturned 0 e ∈
      [ Event.signalReceived,
        Event.stopCalled 0 (100 * Millisecond),
        Event.stopCalled 1 (100 * Millisecond),
        Event.stopReturned 1 none,
        Event.stopReturned 0 (some DeadlineExceeded) ] :=
  have hr : Reachable slowStopApp slowStopFinal :=
    reachable_of_run slowStopSchedule Reachable.init (by decide)
  ⟨hr, by decide,
    callbacks_invoked_after_all_stops_returned slowStopApp slowStopFinal hr
      [ Event.signalReceived,
        Event.stopCalled 0 (100 * Millisecond),
        Event.stopCalled 1 (100 * Millisecond),
        Event.stopReturned 1 none,
        Event.stopReturned 0 (some DeadlineExceeded) ]
      [ Event.callbackInvoked 1 (30 * Millisecond), Event.callbackReturned 0,
        Event.callbackReturned 1, Event.cancelled ]
      0 (30 * Millisecond) rfl 0 (by decide)⟩

/-- C6 at a complete run of `slowStopApp`, in which one `Stop` returns the
deadline error: each server is stopped once, and the callbacks have run. -/
theorem stopAllServers_stops_every_server_once_witness :
    Reachable slowStopApp slowStopFinal ∧
    Event.stopReturned 0 (some DeadlineExceeded) ∈ slowStopFinal.trace ∧
    Event.callbackInvoked 0 (30 * Millisecond) ∈ slowStopFinal.trace ∧
    (∀ i, i < slowStopApp.servers.length →
      slowStopFinal.trace.countP (Event.stopCallOf i) = 1 ∧
      Event.stopCalled i slowStopApp.opts.waitTime ∈ slowStopFinal.trace ∧
      slowStopFinal.trace.countP (Event.stopReturnOf i) = 1) :=
  have hr : Reachable slowStopApp slowStopFinal :=
    reachable_of_run slowStopSchedule Reachable.init (by decide)
  ⟨hr, by decide, by decide,
    (stopAllServers_stops_every_server_once slowStopApp slowStopFinal hr).2.2.1 rfl⟩

end app

namespace server

/-! ## The rejecting mux -/

theorem afterAll_reject (calls : List Call) (s : Server) :
    (s.afterAll calls).mux.reject = (s.mux.reject || calls.any Call.isStop) := by
  induction calls generalizing s with
  | nil => simp [Server.afterAll]
  | cons c cs ih =>
    have ih2 := ih (s.after c)
    simp only [Server.afterAll, List.foldl_cons, List.any_cons] at ih2 ⊢
    rw [ih2]
    cases c <;> simp [Server.after, Server.Handle, Server.Stop, Call.isStop]

theorem afterAll_routes (calls : List Call) (s : Server) :
    (s.afterAll calls).mux.inner.routes = s.mux.inner.routes ++ registered calls := by
  induction calls generalizing s with
  | nil => simp [Server.afterAll, registered]
  | cons c cs ih =>
    have ih2 := ih (s.after c)
    simp only [Server.afterAll, List.foldl_cons] at ih2 ⊢
    rw [ih2]
    cases c <;> simp [Server.after, Server.Handle, Server.Stop, registered, ServeMux.Handle]

/-- C9: on a server made by `New` and then subjected to any sequence of calls
of `Handle` and `Stop`: if `Stop` has been called, `ServeHTTP` answers a request
with status 503 and body "Service Unavailable" whatever the registered
handlers and the standard mux would do; if `Stop` has not been called,
`ServeHTTP` gives exactly what the standard mux gives on the registered handlers. -/
theorem ServeHTTP_rejects_iff_stopped (std : ServeMux → Handler) (name addr : String)
    (calls : List Call) (w : ResponseWriter) (r : Request) :
    (calls.any Call.isStop = true →
      ((New name addr).afterAll calls).mux.ServeHTTP std ResponseWriter.fresh r
        = ⟨some 503, "Service Unavailable"⟩) ∧
    (calls.any Call.isStop = false →
      ((New name addr).afterAll calls).mux.ServeHTTP std w r
        = std ⟨registered calls⟩ w r) := by
  have hr := afterAll_reject calls (New name addr)
  have hm := afterAll_routes calls (New name addr)
  constructor
  · intro h
    have hr2 : ((New name addr).afterAll calls).mux.reject = true := by
      rw [hr, h, Bool.or_true]
    rw [serveMux.ServeHTTP, hr2, if_pos rfl]
    decide
  · intro h
    have hr2 : ((New name addr).afterAll calls).mux.reject = false := by
      rw [hr, h]
      rfl
    have hm2 : ((New name addr).afterAll calls).mux.inner = ⟨registered calls⟩ := by
      cases hi : ((New name addr).afterAll calls).mux.inner with
      | mk routes =>
        rw [hi] at hm
        simp only [New, List.nil_append] at hm
        rw [hm]
    rw [serveMux.ServeHTTP, hr2, hm2]
    simp

/-- C9 at the server of `TestServer` (server_test.go:20-29) with the handler
of "/" registered: after `Stop` a request is answered with 503, before `Stop`
it is answered by the handler. -/
theorem ServeHTTP_rejects_iff_stopped_witness :
    ([Call.Handle "/" okHandler, Call.Stop none].any Call.isStop = true ∧
      ((New "test" "localhost:9090").afterAll [Call.Handle "/" okHandler, Call.Stop none]).mux.ServeHTTP
          exactMatchMux ResponseWriter.fresh ⟨"GET", "/"⟩
        = ⟨some 503, "Service Unavailable"⟩) ∧
    ([Call.Handle "/" okHandler].any Call.isStop = false ∧
      ((New "test" "localhost:9090").afterAll [Call.Handle "/" okHandler]).mux.ServeHTTP
          exactMatchMux ResponseWriter.fresh ⟨"GET", "/"⟩
        = exactMatchMux ⟨registered [Call.Handle "/" okHandler]⟩ ResponseWriter.fresh ⟨"GET", "/"⟩) :=
  ⟨⟨rfl, (ServeHTTP_rejects_iff_stopped exactMatchMux "test" "localhost:9090"
      [Call.Handle "/" okHandler, Call.Stop none] ResponseWriter.fresh ⟨"GET", "/"⟩).1 rfl⟩,
    ⟨rfl, (ServeHTTP_rejects_iff_stopped exactMatchMux "test" "localhost:9090"
      [Call.Handle "/" okHandler] ResponseWriter.fresh ⟨"GET", "/"⟩).2 rfl⟩⟩

end server
